import Mathlib

/-!
# Buddy allocator (`buddy/buddy.c`)

A shallow embedding of the allocator of `buddy.c` and theorems about it.

* C `int` values are `Int`; addresses (`void *`, `unsigned long`) are `Nat`
  taken modulo `2 ^ 64`.
* The address of the array `g_memory` is a parameter `g`.
* The arrays `g_pages` and `free_area` are lists; an access to `g_pages` at a
  position outside the declared bounds is undefined behaviour in C and is the
  result `fault` here.
* A free list is the list of the positions (in `g_pages`) of the pages linked
  into it, first element first.
-/

namespace Buddy

/-! ## Constants and address macros -/

/-- Macro `MIN_ORDER`, defined as 12. -/
def MIN_ORDER : Nat := 12

/-- Macro `MAX_ORDER`, defined as 20. -/
def MAX_ORDER : Nat := 20

/-- Macro `PAGE_SIZE`, defined as `(1<<MIN_ORDER)`. -/
def PAGE_SIZE : Nat := 1 <<< MIN_ORDER

/-- Number of entries of `g_pages`: `(1<<MAX_ORDER)/PAGE_SIZE`. -/
def N_PAGES : Nat := (1 <<< MAX_ORDER) / PAGE_SIZE

/-- Number of values of an `unsigned long` (LP64). -/
def ULONG : Nat := 2 ^ 64

/-- Constant `INT_MAX` of `<limits.h>` for a 32-bit `int`. -/
def INT_MAX : Int := 2147483647

/-- The null pointer. -/
def NULL : Nat := 0

/-- Macro `PAGE_TO_ADDR(page_idx)`, defined as `(void *)((page_idx*PAGE_SIZE) + g_memory)`. -/
def PAGE_TO_ADDR (g : Nat) (page_idx : Nat) : Nat :=
  (page_idx * PAGE_SIZE + g) % ULONG

/-- Macro `ADDR_TO_PAGE(addr)`, defined as
`((unsigned long)((void *)addr - (void *)g_memory) / PAGE_SIZE)`. -/
def ADDR_TO_PAGE (g : Nat) (addr : Nat) : Nat :=
  ((addr + ULONG - g) % ULONG) / PAGE_SIZE

/-- Macro `BUDDY_ADDR(addr, o)`, defined as
`(void *)((((unsigned long)addr - (unsigned long)g_memory) ^ (1<<o)) + (unsigned long)g_memory)`. -/
def BUDDY_ADDR (g : Nat) (addr : Nat) (o : Nat) : Nat :=
  ((((addr + ULONG - g) % ULONG) ^^^ (1 <<< o)) + g) % ULONG

/-- The array `g_memory` (of `1<<MAX_ORDER` bytes) lies at a non-null address and inside
the 64-bit address space. -/
def ValidBase (g : Nat) : Prop :=
  0 < g ∧ g + 2 ^ MAX_ORDER ≤ ULONG

instance (g : Nat) : Decidable (ValidBase g) := by
  unfold ValidBase; infer_instance

/-! ## Results of calls -/

/-- Outcome of running a function of the program. -/
inductive Result (α : Type) where
  /-- the call returns normally -/
  | ret (v : α) : Result α
  /-- the call accesses `g_pages` outside its bounds (undefined behaviour) -/
  | fault : Result α
  /-- the evaluation ran out of fuel -/
  | timeout : Result α
  deriving DecidableEq, Repr

/-! ## Data model -/

/-- The fields of `page_t` other than the list node. -/
structure page_t where
  index : Int
  page_order : Int
  mem_loc : Nat
  deriving DecidableEq, Repr

instance : Inhabited page_t := ⟨{ index := 0, page_order := 0, mem_loc := 0 }⟩

/-- The global variables `free_area` and `g_pages`. -/
structure State where
  /-- the array `free_area`; entry `o` lists the positions of the pages linked into the
  free list of order `o`, first element first -/
  free_area : List (List Nat)
  /-- the array `g_pages` -/
  g_pages : List page_t
  deriving DecidableEq, Repr

/-- The free list `free_area[o]`. -/
def State.list (s : State) (o : Nat) : List Nat := s.free_area.getD o []

/-- The page record `g_pages[i]`. -/
def State.page (s : State) (i : Nat) : page_t := s.g_pages.getD i default

/-- The arrays have their declared sizes: `free_area[MAX_ORDER+1]` and
`g_pages[(1<<MAX_ORDER)/PAGE_SIZE]`. -/
def State.Sized (s : State) : Prop :=
  s.free_area.length = MAX_ORDER + 1 ∧ s.g_pages.length = N_PAGES

instance (s : State) : Decidable s.Sized := by
  unfold State.Sized; infer_instance

/-! ## The list library

The header `list.h` is not among the sources; its three operations used by `buddy.c` are
modelled on lists of page positions. -/

/-- Modelled from the spec: `list_empty` of `list.h` (missing from the sources), the
free-list collection holds no member. -/
def list_empty (l : List Nat) : Bool := l.isEmpty

/-- Modelled from the spec: `list_add` of `list.h` (missing from the sources), insertion
of a node right after the list head. -/
def list_add (node : Nat) (l : List Nat) : List Nat := node :: l

/-- Modelled from the spec: `list_del_init` of `list.h` (missing from the sources), removal
of a node from the list it is linked into; the node carries no reference to its list head,
so it is removed wherever it is. -/
def list_del_init (node : Nat) (free_area : List (List Nat)) : List (List Nat) :=
  free_area.map (fun l => l.erase node)

/-! ## `get_order` -/

/-- The loop `while(size>>=1){ ord++; }` of `get_order`; one unit of fuel per evaluation of
the loop condition. -/
def get_order_loop : Nat → Int → Int → Option Int
  | 0, _, _ => none
  | fuel + 1, size, ord =>
    let size := size >>> (1 : Nat)
    if size ≠ 0 then get_order_loop fuel size (ord + 1) else some ord

/-- Function `int get_order(int size)`. -/
def get_order (fuel : Nat) (size : Int) : Option Int :=
  match get_order_loop fuel (size - 1) 1 with
  | none => none
  | some ord => if ord < (MIN_ORDER : Int) then some (MIN_ORDER : Int) else some ord

/-! ## `get_free_block` -/

/-- The loop `list_for_each_entry(iter, &free_area[order], list)` of `get_free_block`,
started with `lowest_i = INT_MAX`. -/
def lowest_index (g_pages : List page_t) (l : List Nat) : Int :=
  l.foldl (fun lowest_i iter =>
    if (g_pages.getD iter default).index < lowest_i then (g_pages.getD iter default).index
    else lowest_i) INT_MAX

/-- Assignment `g_pages[i].page_order = order`. -/
def set_page_order (g_pages : List page_t) (i : Nat) (order : Int) : List page_t :=
  g_pages.set i { g_pages.getD i default with page_order := order }

/-- Function `void *get_free_block(int order)`; one unit of fuel per nested call. -/
def get_free_block : Nat → Nat → State → Int → Result (Nat × State)
  | 0, _, _, _ => .timeout
  | fuel + 1, g, s, order =>
    if order > (MAX_ORDER : Int) ∨ order < (MIN_ORDER : Int) then
      .ret (NULL, s)
    else if list_empty (s.list order.toNat) then
      match get_free_block fuel g s (order + 1) with
      | .ret (super_block, s1) =>
        let right_block := BUDDY_ADDR g super_block order.toNat
        if N_PAGES ≤ ADDR_TO_PAGE g right_block then .fault else
        let pages1 := set_page_order s1.g_pages (ADDR_TO_PAGE g right_block) order
        if N_PAGES ≤ ADDR_TO_PAGE g super_block then .fault else
        let pages2 := set_page_order pages1 (ADDR_TO_PAGE g super_block) order
        let fa := s1.free_area.set order.toNat
          (list_add (ADDR_TO_PAGE g right_block) (s1.list order.toNat))
        .ret (super_block, { free_area := fa, g_pages := pages2 })
      | .fault => .fault
      | .timeout => .timeout
    else
      let lowest_i := lowest_index s.g_pages (s.list order.toNat)
      if lowest_i < 0 ∨ (N_PAGES : Int) ≤ lowest_i then .fault else
      .ret (PAGE_TO_ADDR g lowest_i.toNat,
        { s with free_area := list_del_init lowest_i.toNat s.free_area })

/-! ## `buddy_init`, `buddy_alloc`, `buddy_free`, `buddy_dump` -/

/-- Function `void buddy_init()`. -/
def buddy_init (g : Nat) (s : State) : State :=
  let pages := (List.range N_PAGES).foldl
    (fun pg i => pg.set i
      { index := (i : Int), page_order := (MAX_ORDER : Int), mem_loc := PAGE_TO_ADDR g i })
    s.g_pages
  let fa := (List.range' MIN_ORDER (MAX_ORDER + 1 - MIN_ORDER)).foldl
    (fun fa i => fa.set i []) s.free_area
  { free_area := fa.set MAX_ORDER (list_add 0 (fa.getD MAX_ORDER [])), g_pages := pages }

/-- Function `void *buddy_alloc(int size)`. -/
def buddy_alloc (fuel : Nat) (g : Nat) (s : State) (size : Int) : Result (Nat × State) :=
  match get_order fuel size with
  | none => .timeout
  | some order => get_free_block fuel g s order

/-- Function `void buddy_free(void *addr)`: the body is empty. -/
def buddy_free (s : State) (_addr : Nat) : State := s

/-- Function `void buddy_dump()`: the pairs printed by `printf("%d:%dK ", cnt, (1<<o)/1024)`
for `o = MIN_ORDER .. MAX_ORDER`, and the state after the call. -/
def buddy_dump (s : State) : List (Nat × Nat) × State :=
  ((List.range' MIN_ORDER (MAX_ORDER + 1 - MIN_ORDER)).map
    (fun o => ((s.list o).length, (1 <<< o) / 1024)), s)

/-- The globals as the loader leaves them (all fields zero), taken as a state with no page
linked into any list. -/
def zero_state : State :=
  { free_area := List.replicate (MAX_ORDER + 1) [],
    g_pages := List.replicate N_PAGES { index := 0, page_order := 0, mem_loc := 0 } }

/-- The stores of the splitting branch of `get_free_block` (the two assignments to
`page_order` and the `list_add` of the right half), applied to the state `s1` left by the
nested call that returned `super_block`. -/
def split_update (g : Nat) (s1 : State) (super_block : Nat) (order : Int) : State :=
  { free_area := s1.free_area.set order.toNat
      (list_add (ADDR_TO_PAGE g (BUDDY_ADDR g super_block order.toNat)) (s1.list order.toNat)),
    g_pages := set_page_order
      (set_page_order s1.g_pages (ADDR_TO_PAGE g (BUDDY_ADDR g super_block order.toNat)) order)
      (ADDR_TO_PAGE g super_block) order }

/-! ## Predicates on states -/

/-- Well-formed states: the arrays have their declared sizes, every page carries its own
position in its `index` field (as `buddy_init` sets it), and the free lists of the orders
`MIN_ORDER .. MAX_ORDER` are proper linked lists over the page table, that is, every
member is a page of the table, no page occurs twice in a list, and no page is linked into
two lists. -/
def State.WellFormed (s : State) : Prop :=
  s.Sized ∧
  (∀ i, i < N_PAGES → (s.page i).index = (i : Int)) ∧
  (∀ o p, MIN_ORDER ≤ o → o ≤ MAX_ORDER → p ∈ s.list o → p < N_PAGES) ∧
  (∀ o, MIN_ORDER ≤ o → o ≤ MAX_ORDER → (s.list o).Nodup) ∧
  (∀ o o' p, MIN_ORDER ≤ o → o ≤ MAX_ORDER → MIN_ORDER ≤ o' → o' ≤ MAX_ORDER →
    p ∈ s.list o → p ∈ s.list o' → o = o')

/-- Byte `x` of the arena (an offset from `g_memory`) lies in a block registered in a free
list: the block of order `o` headed by page `p` covers `[p * PAGE_SIZE, p * PAGE_SIZE + 2 ^ o)`. -/
def State.free_at (s : State) (x : Nat) : Prop :=
  ∃ o p, MIN_ORDER ≤ o ∧ o ≤ MAX_ORDER ∧ p ∈ s.list o ∧
    p * PAGE_SIZE ≤ x ∧ x < p * PAGE_SIZE + 2 ^ o

/-- Total number of bytes held in the free lists of the orders `MIN_ORDER .. MAX_ORDER`. -/
def State.free_bytes (s : State) : Nat :=
  ((List.range' MIN_ORDER (MAX_ORDER + 1 - MIN_ORDER)).map
    (fun o => (s.list o).length * 2 ^ o)).sum

/-- The block structure of the free lists: the state is sized, index fields are positions,
no list has a repeated member, every free block is aligned to its size and lies inside the
arena, two different free blocks are disjoint, the head page of a free block records the
order of its list, and below `MAX_ORDER` every free block is the right half of its parent. -/
def State.Inv (s : State) : Prop :=
  s.Sized ∧
  (∀ i, i < N_PAGES → (s.page i).index = (i : Int)) ∧
  (∀ o, MIN_ORDER ≤ o → o ≤ MAX_ORDER → (s.list o).Nodup) ∧
  (∀ o p, MIN_ORDER ≤ o → o ≤ MAX_ORDER → p ∈ s.list o →
    2 ^ o ∣ p * PAGE_SIZE ∧ p * PAGE_SIZE + 2 ^ o ≤ 2 ^ MAX_ORDER) ∧
  (∀ o p o' p', MIN_ORDER ≤ o → o ≤ MAX_ORDER → MIN_ORDER ≤ o' → o' ≤ MAX_ORDER →
    p ∈ s.list o → p' ∈ s.list o' → (o ≠ o' ∨ p ≠ p') →
    p * PAGE_SIZE + 2 ^ o ≤ p' * PAGE_SIZE ∨ p' * PAGE_SIZE + 2 ^ o' ≤ p * PAGE_SIZE) ∧
  (∀ o p, MIN_ORDER ≤ o → o ≤ MAX_ORDER → p ∈ s.list o → (s.page p).page_order = (o : Int)) ∧
  (∀ o p, MIN_ORDER ≤ o → o < MAX_ORDER → p ∈ s.list o → (p * PAGE_SIZE / 2 ^ o) % 2 = 1)

/-- States the program can be in: after `buddy_init` (run on globals of the declared sizes),
and after any further returning call of `buddy_alloc` or `buddy_free`. -/
inductive Reachable (g : Nat) : State → Prop where
  | init (s0 : State) (h : s0.Sized) : Reachable g (buddy_init g s0)
  | alloc (fuel : Nat) (s : State) (size : Int) (a : Nat) (s' : State)
      (hs : Reachable g s) (h : buddy_alloc fuel g s size = .ret (a, s')) : Reachable g s'
  | free (s : State) (addr : Nat) (hs : Reachable g s) : Reachable g (buddy_free s addr)

/-- Runs of `buddy_alloc` calls after `buddy_init`, with the blocks handed out so far:
each successful call adds the pair of the returned address and the block length
`2 ^ get_order(size)`; a call that returns `NULL` adds nothing. -/
inductive AllocRun (g : Nat) : List (Nat × Nat) → State → Prop where
  | init (s0 : State) (h : s0.Sized) : AllocRun g [] (buddy_init g s0)
  | success (fuel : Nat) (blocks : List (Nat × Nat)) (s : State) (size order : Int) (a : Nat)
      (s' : State) (hs : AllocRun g blocks s) (ho : get_order fuel size = some order)
      (h : buddy_alloc fuel g s size = .ret (a, s')) (ha : a ≠ NULL) :
      AllocRun g ((a, 2 ^ order.toNat) :: blocks) s'
  | failure (fuel : Nat) (blocks : List (Nat × Nat)) (s : State) (size : Int) (s' : State)
      (hs : AllocRun g blocks s) (h : buddy_alloc fuel g s size = .ret (NULL, s')) :
      AllocRun g blocks s'

/-- Successive calls `buddy_alloc(size)`, `n` of them: the returned pointers in call order
and the final state, or the first outcome that is not a return. -/
def alloc_many (fuel g : Nat) (size : Int) : Nat → State → Result (List Nat × State)
  | 0, s => .ret ([], s)
  | n + 1, s =>
    match buddy_alloc fuel g s size with
    | .ret (a, s1) =>
      match alloc_many fuel g size n s1 with
      | .ret (l, s2) => .ret (a :: l, s2)
      | .fault => .fault
      | .timeout => .timeout
    | .fault => .fault
    | .timeout => .timeout

/-- The state a call leaves when it returns, and `s` otherwise. -/
def Result.state (r : Result (Nat × State)) (s : State) : State :=
  match r with
  | .ret (_, s') => s'
  | .fault => s
  | .timeout => s

/-- A concrete address of `g_memory`. -/
def g0 : Nat := 4194304

/-- The state after `buddy_init()` on zeroed globals. -/
def s_init : State := buddy_init g0 zero_state

/-- The state after `buddy_init(); a = buddy_alloc(4096);`. -/
def s_one : State := (buddy_alloc 32 g0 s_init 4096).state s_init

/-- The state after `buddy_init(); a = buddy_alloc(4096); b = buddy_alloc(4096);`. -/
def s_two : State := (buddy_alloc 32 g0 s_one 4096).state s_one

/-- The state after `buddy_init(); a = buddy_alloc(1 << MAX_ORDER);`. -/
def s_whole : State := (buddy_alloc 32 g0 s_init 1048576).state s_init

/-- A well-formed state with several members in one list, as a working `buddy_free` would
leave it: on top of `s_init`, the pages 3, 5 and 7 are free at order 12 (linked in the order
7, 3, 5, so the list reads 5, 3, 7), the pages 0, 1, 2, 4 and 6 are allocated, and the rest of
the arena is free in blocks of the orders 15 to 19. -/
def s_mixed : State :=
  { s_init with
    free_area := [[], [], [], [], [], [], [], [], [], [], [], [],
      [5, 3, 7], [], [], [8], [16], [32], [64], [128], []] }

/-! ## Theorems -/

/-! ### `get_order` -/

theorem get_order_loop_nat (fuel n : Nat) (ord : Int) (h : n < 2 ^ (fuel + 1)) :
    get_order_loop (fuel + 1) (n : Int) ord = some (ord + (Nat.log 2 n : Nat)) := by
  induction fuel generalizing n ord with
  | zero =>
    have hn : n ≤ 1 := by simpa using Nat.lt_succ_iff.mp h
    have h0 : (n : Int) >>> (1 : Nat) = 0 := by
      rw [Int.shiftRight_eq_div_pow]; interval_cases n <;> simp
    have hl : Nat.log 2 n = 0 := Nat.log_of_lt (by omega)
    simp [get_order_loop, h0, hl]
  | succ k ih =>
    have hs : (n : Int) >>> (1 : Nat) = ((n / 2 : Nat) : Int) := by
      rw [Int.shiftRight_eq_div_pow]; simp
    by_cases hn : n < 2
    · have h0 : n / 2 = 0 := by omega
      have hl : Nat.log 2 n = 0 := Nat.log_of_lt hn
      rw [get_order_loop]
      simp [hs, h0, hl]
    · have h0 : n / 2 ≠ 0 := by omega
      have hl : Nat.log 2 n = Nat.log 2 (n / 2) + 1 :=
        Nat.log_of_one_lt_of_le (by decide) (by omega)
      have hlt : n / 2 < 2 ^ (k + 1) := by
        have : n < 2 * 2 ^ (k + 1) := by rw [pow_succ] at h; omega
        omega
      rw [get_order_loop]
      simp only [hs]
      rw [if_pos (by exact_mod_cast h0), ih _ _ hlt, hl]
      push_cast; ring_nf


theorem get_order_eq (fuel : Nat) (size : Int) (hf : 31 ≤ fuel) (h1 : 1 ≤ size)
    (h2 : size ≤ INT_MAX) :
    get_order fuel size = some ((max MIN_ORDER (1 + Nat.log 2 (size - 1).toNat) : Nat) : Int) := by
  obtain ⟨k, rfl⟩ : ∃ k, fuel = k + 1 := ⟨fuel - 1, by omega⟩
  obtain ⟨n, hn⟩ : ∃ n : Nat, size - 1 = (n : Int) := ⟨(size - 1).toNat, by omega⟩
  have hlt : n < 2 ^ (k + 1) := by
    have h31 : n < 2 ^ 31 := by
      have : (n : Int) < 2147483648 := by unfold INT_MAX at h2; omega
      norm_num; exact_mod_cast this
    exact lt_of_lt_of_le h31 (Nat.pow_le_pow_right (by decide) (by omega))
  unfold get_order
  rw [hn, get_order_loop_nat k n 1 hlt]
  simp only [Int.toNat_ofNat, MIN_ORDER]
  by_cases hc : 1 + Nat.log 2 n < 12
  · rw [if_pos (by push_cast; omega), max_eq_left (by omega)]
  · rw [if_neg (by push_cast; omega), max_eq_right (by omega)]
    push_cast; rfl

theorem get_order_least_aux (fuel : Nat) (size : Int) (hf : 31 ≤ fuel) (h1 : 1 ≤ size)
    (h2 : size ≤ INT_MAX) :
    ∃ o : Nat, get_order fuel size = some (o : Int) ∧ MIN_ORDER ≤ o ∧ size ≤ 2 ^ o ∧
      ∀ o' : Nat, MIN_ORDER ≤ o' → size ≤ 2 ^ o' → o ≤ o' := by
  refine ⟨_, get_order_eq fuel size hf h1 h2, le_max_left _ _, ?_, ?_⟩
  · obtain ⟨n, hn⟩ : ∃ n : Nat, size - 1 = (n : Int) := ⟨(size - 1).toNat, by omega⟩
    have hs : size = ((n + 1 : Nat) : Int) := by push_cast; omega
    rw [hn, Int.toNat_ofNat, hs]
    have h3 : n < 2 ^ (Nat.log 2 n).succ := Nat.lt_pow_succ_log_self (by decide) n
    have h4 : 2 ^ (Nat.log 2 n).succ ≤ 2 ^ (max MIN_ORDER (1 + Nat.log 2 n)) :=
      Nat.pow_le_pow_right (by decide) (by rw [Nat.succ_eq_add_one]; omega)
    exact_mod_cast (by omega : n + 1 ≤ 2 ^ (max MIN_ORDER (1 + Nat.log 2 n)))
  · intro o' ho' hsz
    obtain ⟨n, hn⟩ : ∃ n : Nat, size - 1 = (n : Int) := ⟨(size - 1).toNat, by omega⟩
    have hs : size = ((n + 1 : Nat) : Int) := by push_cast; omega
    rw [hn, Int.toNat_ofNat]
    rw [hs] at hsz
    have hsz' : n + 1 ≤ 2 ^ o' := by exact_mod_cast hsz
    apply max_le ho'
    by_cases h0 : n = 0
    · subst h0; simp [MIN_ORDER] at ho' ⊢; omega
    · have := Nat.log_lt_of_lt_pow h0 (by omega : n < 2 ^ o')
      omega

/-- C1: for every `size` with `1 ≤ size ≤ INT_MAX`, `get_order(size)` returns (given fuel for
31 evaluations of the loop condition) the least `o ≥ MIN_ORDER` with `2 ^ o ≥ size`;
`get_order(5000) = 13`, `get_order(4096) = 12`, `get_order(4097) = 13`. -/
theorem get_order_least (fuel : Nat) (size : Int) (hf : 31 ≤ fuel) (h1 : 1 ≤ size)
    (h2 : size ≤ INT_MAX) :
    (∃ o : Nat, get_order fuel size = some (o : Int) ∧ MIN_ORDER ≤ o ∧ size ≤ 2 ^ o ∧
      ∀ o' : Nat, MIN_ORDER ≤ o' → size ≤ 2 ^ o' → o ≤ o') ∧
    get_order fuel 5000 = some 13 ∧ get_order fuel 4096 = some 12 ∧
    get_order fuel 4097 = some 13 := by
  refine ⟨get_order_least_aux fuel size hf h1 h2, ?_, ?_, ?_⟩
  · obtain ⟨o, ho, h12, hle, hmin⟩ := get_order_least_aux fuel 5000 hf (by decide) (by decide)
    have hu : o ≤ 13 := hmin 13 (by decide) (by norm_num)
    have hl : 13 ≤ o := by
      by_contra hc
      have : o = 12 := by simp only [MIN_ORDER] at h12; omega
      subst this; norm_num at hle
    rw [ho, le_antisymm hu hl]; rfl
  · obtain ⟨o, ho, h12, hle, hmin⟩ := get_order_least_aux fuel 4096 hf (by decide) (by decide)
    have hu : o ≤ 12 := hmin 12 (by decide) (by norm_num)
    rw [ho, le_antisymm hu h12]; rfl
  · obtain ⟨o, ho, h12, hle, hmin⟩ := get_order_least_aux fuel 4097 hf (by decide) (by decide)
    have hu : o ≤ 13 := hmin 13 (by decide) (by norm_num)
    have hl : 13 ≤ o := by
      by_contra hc
      have : o = 12 := by simp only [MIN_ORDER] at h12; omega
      subst this; norm_num at hle
    rw [ho, le_antisymm hu hl]; rfl

theorem get_order_least_witness :
    (∃ o : Nat, get_order 31 5000 = some (o : Int) ∧ MIN_ORDER ≤ o ∧ (5000 : Int) ≤ 2 ^ o ∧
      ∀ o' : Nat, MIN_ORDER ≤ o' → (5000 : Int) ≤ 2 ^ o' → o ≤ o') ∧
    get_order 31 5000 = some 13 ∧ get_order 31 4096 = some 12 ∧
    get_order 31 4097 = some 13 :=
  get_order_least 31 5000 (by decide) (by decide) (by decide)


/-! ### Constants -/

theorem N_PAGES_eq : N_PAGES = 256 := by decide

theorem PAGE_SIZE_eq : PAGE_SIZE = 4096 := by decide

theorem ULONG_eq : ULONG = 18446744073709551616 := by decide

/-! ### Array accessors -/

theorem getD_map_erase (fa : List (List Nat)) (m o : Nat) :
    (fa.map (fun l => l.erase m)).getD o [] = (fa.getD o []).erase m := by
  simp only [List.getD_eq_getElem?_getD, List.getElem?_map]
  cases fa[o]? <;> simp

theorem getD_set_gen {α : Type} (l : List α) (i j : Nat) (v d : α) :
    (l.set i v).getD j d = if i = j ∧ i < l.length then v else l.getD j d := by
  simp only [List.getD_eq_getElem?_getD, List.getElem?_set]
  by_cases h : i = j
  · subst h
    by_cases h2 : i < l.length
    · simp [h2]
    · simp [h2, List.getElem?_eq_none (not_lt.mp h2)]
  · simp [h]

theorem list_del_init_list (s : State) (m o : Nat) :
    State.list { s with free_area := list_del_init m s.free_area } o = (s.list o).erase m := by
  simp only [State.list, list_del_init, getD_map_erase]

/-! ### The search for the lowest index -/

theorem lowest_index_fold (pg : List page_t) (l : List Nat) (acc : Int)
    (h : ∀ p ∈ l, (pg.getD p default).index = (p : Int)) :
    (∀ p ∈ l, l.foldl (fun lowest_i iter =>
        if (pg.getD iter default).index < lowest_i then (pg.getD iter default).index
        else lowest_i) acc ≤ (p : Int)) ∧
    l.foldl (fun lowest_i iter =>
        if (pg.getD iter default).index < lowest_i then (pg.getD iter default).index
        else lowest_i) acc ≤ acc ∧
    (l.foldl (fun lowest_i iter =>
        if (pg.getD iter default).index < lowest_i then (pg.getD iter default).index
        else lowest_i) acc = acc ∨
      ∃ m ∈ l, l.foldl (fun lowest_i iter =>
        if (pg.getD iter default).index < lowest_i then (pg.getD iter default).index
        else lowest_i) acc = (m : Int)) := by
  induction l generalizing acc with
  | nil => simp
  | cons a t ih =>
    have ha : (pg.getD a default).index = (a : Int) := h a (List.mem_cons_self _ _)
    have ht : ∀ p ∈ t, (pg.getD p default).index = (p : Int) :=
      fun p hp => h p (List.mem_cons_of_mem _ hp)
    simp only [List.foldl_cons, ha]
    obtain ⟨h1, h2, h3⟩ := ih (if (a : Int) < acc then (a : Int) else acc) ht
    refine ⟨?_, ?_, ?_⟩
    · intro p hp
      rcases List.mem_cons.mp hp with rfl | hp
      · refine le_trans h2 ?_
        split <;> omega
      · exact h1 p hp
    · refine le_trans h2 ?_
      split <;> omega
    · rcases h3 with h3 | ⟨m, hm, h3⟩
      · by_cases hc : (a : Int) < acc
        · right; exact ⟨a, List.mem_cons_self _ _, by rw [h3, if_pos hc]⟩
        · left; rw [h3, if_neg hc]
      · right; exact ⟨m, List.mem_cons_of_mem _ hm, h3⟩

theorem lowest_index_min (pg : List page_t) (l : List Nat) (hne : l ≠ [])
    (h : ∀ p ∈ l, (pg.getD p default).index = (p : Int)) (hb : ∀ p ∈ l, p < N_PAGES) :
    ∃ m ∈ l, (∀ p ∈ l, m ≤ p) ∧ lowest_index pg l = (m : Int) := by
  obtain ⟨h1, _, h3⟩ := lowest_index_fold pg l INT_MAX h
  rcases h3 with h3 | ⟨m, hm, h3⟩
  · exfalso
    obtain ⟨p, hp⟩ := List.exists_mem_of_ne_nil l hne
    have := h1 p hp
    rw [h3, INT_MAX] at this
    have := hb p hp
    rw [N_PAGES_eq] at this
    omega
  · refine ⟨m, hm, ?_, h3⟩
    intro p hp
    have := h1 p hp
    rw [h3] at this
    exact_mod_cast this


/-! ### get_free_block: the branch that takes a block from the list -/

theorem get_free_block_take (fuel g : Nat) (s : State) (o : Nat)
    (ho : MIN_ORDER ≤ o) (ho' : o ≤ MAX_ORDER) (hne : s.list o ≠ []) :
    get_free_block (fuel + 1) g s (o : Int) =
      if lowest_index s.g_pages (s.list o) < 0 ∨
          (N_PAGES : Int) ≤ lowest_index s.g_pages (s.list o) then .fault
      else .ret (PAGE_TO_ADDR g (lowest_index s.g_pages (s.list o)).toNat,
        { s with free_area :=
            (list_del_init (lowest_index s.g_pages (s.list o)).toNat s.free_area) }) := by
  have h1 : ¬ ((o : Int) > (MAX_ORDER : Int) ∨ (o : Int) < (MIN_ORDER : Int)) := by
    push_neg; exact ⟨by exact_mod_cast ho', by exact_mod_cast ho⟩
  have h2 : list_empty (s.list o) = false := by
    cases h : s.list o with
    | nil => exact absurd h hne
    | cons a t => rfl
  rw [get_free_block]
  simp only [h1, if_false, Int.toNat_ofNat, h2, Bool.false_eq_true]


/-! ### buddy_init -/

theorem foldl_set_length {α : Type} (f : Nat → α) (is : List Nat) (l : List α) :
    (is.foldl (fun l i => l.set i (f i)) l).length = l.length := by
  induction is generalizing l with
  | nil => rfl
  | cons i t ih => rw [List.foldl_cons, ih, List.length_set]

theorem foldl_set_getD {α : Type} (f : Nat → α) (d : α) (is : List Nat) (l : List α) (j : Nat) :
    (is.foldl (fun l i => l.set i (f i)) l).getD j d =
      if j ∈ is ∧ j < l.length then f j else l.getD j d := by
  induction is generalizing l with
  | nil => simp
  | cons i t ih =>
    rw [List.foldl_cons, ih, List.length_set, getD_set_gen]
    by_cases h1 : j ∈ t
    · by_cases h2 : j < l.length
      · simp [h1, h2]
      · have : ¬ (i = j ∧ i < l.length) := fun h => h2 (h.1 ▸ h.2)
        simp [h2, this]
    · by_cases h3 : i = j
      · subst h3
        by_cases h2 : i < l.length
        · simp [h1, h2]
        · simp [h1, h2]
      · have : ¬ j = i := fun h => h3 h.symm
        simp [h1, h3, this]

theorem buddy_init_sized (g : Nat) (s : State) (hs : s.Sized) : (buddy_init g s).Sized := by
  obtain ⟨h1, h2⟩ := hs
  refine ⟨?_, ?_⟩
  · simp only [buddy_init, List.length_set]
    rw [foldl_set_length (fun _ => ([] : List Nat))]
    exact h1
  · simp only [buddy_init]
    rw [foldl_set_length]
    exact h2

theorem buddy_init_page (g : Nat) (s : State) (hs : s.Sized) (i : Nat) (hi : i < N_PAGES) :
    (buddy_init g s).page i =
      { index := (i : Int), page_order := (MAX_ORDER : Int), mem_loc := PAGE_TO_ADDR g i } := by
  simp only [State.page, buddy_init]
  rw [foldl_set_getD]
  rw [if_pos ⟨List.mem_range.mpr hi, by rw [hs.2]; exact hi⟩]

theorem buddy_init_list (g : Nat) (s : State) (hs : s.Sized) (o : Nat) :
    (buddy_init g s).list o =
      if o = MAX_ORDER then [0]
      else if MIN_ORDER ≤ o ∧ o < MAX_ORDER then [] else s.list o := by
  simp only [State.list, buddy_init, list_add]
  rw [getD_set_gen, foldl_set_length (fun _ => ([] : List Nat)),
    foldl_set_getD (fun _ => ([] : List Nat)), foldl_set_getD (fun _ => ([] : List Nat)), hs.1]
  simp only [List.mem_range'_1, MAX_ORDER, MIN_ORDER]
  by_cases h1 : o = 20
  · subst h1; simp
  · by_cases h2 : 12 ≤ o ∧ o < 20
    · have : ¬ (20 = o ∧ 20 < 20 + 1) := fun h => h1 h.1.symm
      rw [if_neg this, if_neg h1, if_pos h2, if_pos ⟨⟨h2.1, by omega⟩, by omega⟩]
    · have : ¬ (20 = o ∧ 20 < 20 + 1) := fun h => h1 h.1.symm
      rw [if_neg this, if_neg h1, if_neg h2, if_neg (by omega)]

theorem buddy_init_wellFormed (g : Nat) (s : State) (hs : s.Sized) :
    (buddy_init g s).WellFormed := by
  refine ⟨buddy_init_sized g s hs, ?_, ?_, ?_, ?_⟩
  · intro i hi
    rw [buddy_init_page g s hs i hi]
  · intro o p h1 h2 hp
    rw [buddy_init_list g s hs] at hp
    by_cases h : o = MAX_ORDER
    · rw [if_pos h] at hp
      rw [List.mem_singleton.mp hp, N_PAGES_eq]; decide
    · rw [if_neg h, if_pos ⟨h1, lt_of_le_of_ne h2 h⟩] at hp
      exact absurd hp (List.not_mem_nil _)
  · intro o h1 h2
    rw [buddy_init_list g s hs]
    by_cases h : o = MAX_ORDER
    · rw [if_pos h]; exact List.nodup_singleton _
    · rw [if_neg h, if_pos ⟨h1, lt_of_le_of_ne h2 h⟩]; exact List.nodup_nil
  · intro o o' p h1 h2 h1' h2' hp hp'
    rw [buddy_init_list g s hs] at hp hp'
    by_cases h : o = MAX_ORDER
    · by_cases h' : o' = MAX_ORDER
      · rw [h, h']
      · rw [if_neg h', if_pos ⟨h1', lt_of_le_of_ne h2' h'⟩] at hp'
        exact absurd hp' (List.not_mem_nil _)
    · rw [if_neg h, if_pos ⟨h1, lt_of_le_of_ne h2 h⟩] at hp
      exact absurd hp (List.not_mem_nil _)

theorem zero_state_sized : zero_state.Sized := by
  simp [State.Sized, zero_state]


/-- C2: in a well-formed state with `free_area[order]` non-empty, for `order` in
`[MIN_ORDER, MAX_ORDER]`, `get_free_block(order)` returns the address of the member `m` of
`free_area[order]` with the lowest page index, removes exactly `m` from `free_area[order]`,
and leaves every other free list and the whole page table unchanged. -/
theorem get_free_block_nonempty (fuel g : Nat) (s : State) (order : Nat)
    (hf : 0 < fuel) (ho : MIN_ORDER ≤ order) (ho' : order ≤ MAX_ORDER)
    (hwf : s.WellFormed) (hne : s.list order ≠ []) :
    ∃ m s', m ∈ s.list order ∧ (∀ p ∈ s.list order, m ≤ p) ∧
      get_free_block fuel g s (order : Int) = .ret (PAGE_TO_ADDR g m, s') ∧
      s'.list order = (s.list order).erase m ∧ m ∉ s'.list order ∧
      (∀ p, p ≠ m → (p ∈ s'.list order ↔ p ∈ s.list order)) ∧
      (∀ o, MIN_ORDER ≤ o → o ≤ MAX_ORDER → o ≠ order → s'.list o = s.list o) ∧
      s'.g_pages = s.g_pages := by
  obtain ⟨k, rfl⟩ : ∃ k, fuel = k + 1 := ⟨fuel - 1, by omega⟩
  obtain ⟨_, hidx, hbd, hnd, huniq⟩ := hwf
  have hb : ∀ p ∈ s.list order, p < N_PAGES := fun p hp => hbd order p ho ho' hp
  have hi : ∀ p ∈ s.list order, (s.g_pages.getD p default).index = (p : Int) :=
    fun p hp => hidx p (hb p hp)
  obtain ⟨m, hm, hmin, hlow⟩ := lowest_index_min s.g_pages (s.list order) hne hi hb
  have hnf : ¬ (lowest_index s.g_pages (s.list order) < 0 ∨
      (N_PAGES : Int) ≤ lowest_index s.g_pages (s.list order)) := by
    rw [hlow]
    have := hb m hm
    omega
  refine ⟨m, { s with free_area := list_del_init m s.free_area }, hm, hmin, ?_, ?_, ?_, ?_, ?_,
    rfl⟩
  · rw [get_free_block_take k g s order ho ho' hne, if_neg hnf, hlow, Int.toNat_ofNat]
  · exact list_del_init_list s m order
  · rw [list_del_init_list]
    exact fun h => (List.Nodup.mem_erase_iff (hnd order ho ho')).mp h |>.1 rfl
  · intro p hp
    rw [list_del_init_list, List.Nodup.mem_erase_iff (hnd order ho ho')]
    exact ⟨fun h => h.2, fun h => ⟨hp, h⟩⟩
  · intro o h1 h2 hne'
    rw [list_del_init_list]
    exact List.erase_of_not_mem fun h => hne' (huniq o order m h1 h2 ho ho' h hm)

/-! ### Exclusive or with a power of two -/

theorem xor_one_eq (q : Nat) : q ^^^ 1 = if q % 2 = 0 then q + 1 else q - 1 := by
  have h1 : (q ^^^ 1) / 2 = q / 2 := by
    rw [Nat.xor_div_two]; simp
  have h2 : (q ^^^ 1) % 2 = (q + 1) % 2 := Nat.xor_mod_two_eq
  split <;> omega

theorem mul_xor_two_pow (o q : Nat) : (2 ^ o * q) ^^^ 2 ^ o = 2 ^ o * (q ^^^ 1) := by
  apply Nat.eq_of_testBit_eq
  intro j
  rw [Nat.testBit_xor, Nat.testBit_mul_pow_two, Nat.testBit_mul_pow_two, Nat.testBit_xor,
    Nat.testBit_two_pow]
  have h1 : Nat.testBit 1 (j - o) = decide (0 = j - o) := by
    have := @Nat.testBit_two_pow 0 (j - o)
    simpa using this
  rw [h1]
  by_cases hj : j ≥ o
  · by_cases he : o = j
    · subst he; simp
    · have : ¬ (0 = j - o) := by omega
      simp [hj, he, this]
  · have : ¬ (o = j) := by omega
    simp [hj, this]

theorem xor_two_pow (o x : Nat) (h : 2 ^ o ∣ x) :
    x ^^^ 2 ^ o = if (x / 2 ^ o) % 2 = 0 then x + 2 ^ o else x - 2 ^ o := by
  obtain ⟨q, rfl⟩ := h
  have hpos : 0 < 2 ^ o := Nat.two_pow_pos o
  rw [mul_xor_two_pow, xor_one_eq, Nat.mul_div_cancel_left q hpos]
  split
  · rw [Nat.mul_add, Nat.mul_one]
  · rw [Nat.mul_sub, Nat.mul_one]

/-! ### Address arithmetic -/

theorem two_pow_MAX_ORDER : 2 ^ MAX_ORDER = 1048576 := by decide

theorem PAGE_TO_ADDR_eq (g p : Nat) (hg : ValidBase g) (hp : p * PAGE_SIZE < 2 ^ MAX_ORDER) :
    PAGE_TO_ADDR g p = g + p * PAGE_SIZE := by
  obtain ⟨_, h2⟩ := hg
  rw [ULONG_eq, two_pow_MAX_ORDER] at h2
  rw [two_pow_MAX_ORDER] at hp
  rw [PAGE_TO_ADDR, ULONG_eq]
  omega

theorem ADDR_TO_PAGE_eq (g a : Nat) (hg : ValidBase g) (ha : a < 2 ^ MAX_ORDER) :
    ADDR_TO_PAGE g (g + a) = a / PAGE_SIZE := by
  obtain ⟨_, h2⟩ := hg
  rw [ULONG_eq, two_pow_MAX_ORDER] at h2
  rw [two_pow_MAX_ORDER] at ha
  rw [ADDR_TO_PAGE, ULONG_eq]
  congr 1
  omega

theorem BUDDY_ADDR_eq (g a o : Nat) (hg : ValidBase g) (ha : a < 2 ^ MAX_ORDER)
    (hx : a ^^^ 2 ^ o < 2 ^ MAX_ORDER) :
    BUDDY_ADDR g (g + a) o = g + (a ^^^ 2 ^ o) := by
  obtain ⟨_, h2⟩ := hg
  rw [ULONG_eq, two_pow_MAX_ORDER] at h2
  rw [two_pow_MAX_ORDER] at ha hx
  rw [BUDDY_ADDR, ULONG_eq, Nat.one_shiftLeft]
  have h3 : (g + a + 18446744073709551616 - g) % 18446744073709551616 = a := by omega
  rw [h3]
  omega

theorem ADDR_TO_PAGE_NULL (g : Nat) (hg : ValidBase g) : N_PAGES ≤ ADDR_TO_PAGE g NULL := by
  obtain ⟨h1, h2⟩ := hg
  rw [ULONG_eq, two_pow_MAX_ORDER] at h2
  rw [ADDR_TO_PAGE, ULONG_eq, NULL, N_PAGES_eq, PAGE_SIZE_eq]
  omega

/-- The right half of an aligned block: for `a` a multiple of `2 ^ (o + 1)`, the buddy of
`g + a` at order `o` is `g + a + 2 ^ o`. -/
theorem BUDDY_ADDR_left (g a o : Nat) (hg : ValidBase g) (hd : 2 ^ (o + 1) ∣ a)
    (hb : a + 2 ^ (o + 1) ≤ 2 ^ MAX_ORDER) :
    BUDDY_ADDR g (g + a) o = g + a + 2 ^ o := by
  have hpos : 0 < 2 ^ o := Nat.two_pow_pos o
  have h2 : 2 ^ (o + 1) = 2 * 2 ^ o := by rw [pow_succ]; omega
  have hd' : 2 ^ o ∣ a := Dvd.dvd.trans ⟨2, by rw [h2]; omega⟩ hd
  have hev : a / 2 ^ o % 2 = 0 := by
    obtain ⟨q, rfl⟩ := hd
    rw [h2, Nat.mul_assoc, Nat.mul_comm 2, Nat.mul_assoc, Nat.mul_div_cancel_left _ hpos]
    omega
  have hx : a ^^^ 2 ^ o = a + 2 ^ o := by rw [xor_two_pow o a hd', if_pos hev]
  rw [BUDDY_ADDR_eq g a o hg (by omega) (by rw [hx]; omega), hx, Nat.add_assoc]


/-! ### get_free_block: unfolding -/

theorem get_free_block_zero (g : Nat) (s : State) (order : Int) :
    get_free_block 0 g s order = .timeout := rfl

theorem get_free_block_out_of_range (fuel g : Nat) (s : State) (order : Int)
    (h : order > (MAX_ORDER : Int) ∨ order < (MIN_ORDER : Int)) :
    get_free_block (fuel + 1) g s order = .ret (NULL, s) := by
  rw [get_free_block, if_pos h]

theorem get_free_block_split (fuel g : Nat) (s : State) (o : Nat)
    (ho : MIN_ORDER ≤ o) (ho' : o ≤ MAX_ORDER) (he : s.list o = []) :
    get_free_block (fuel + 1) g s (o : Int) =
      match get_free_block fuel g s ((o : Int) + 1) with
      | .ret (super_block, s1) =>
        if N_PAGES ≤ ADDR_TO_PAGE g (BUDDY_ADDR g super_block o) then .fault
        else if N_PAGES ≤ ADDR_TO_PAGE g super_block then .fault
        else .ret (super_block, split_update g s1 super_block (o : Int))
      | .fault => .fault
      | .timeout => .timeout := by
  have h1 : ¬ ((o : Int) > (MAX_ORDER : Int) ∨ (o : Int) < (MIN_ORDER : Int)) := by
    push_neg; exact ⟨by exact_mod_cast ho', by exact_mod_cast ho⟩
  have h2 : list_empty (s.list o) = true := by rw [he]; rfl
  rw [get_free_block]
  simp only [h1, if_false, Int.toNat_ofNat, h2, if_true, split_update]

/-! ### The stores of the splitting branch -/

theorem set_page_order_length (pg : List page_t) (i : Nat) (order : Int) :
    (set_page_order pg i order).length = pg.length := by
  simp [set_page_order]

theorem set_page_order_getD (pg : List page_t) (i j : Nat) (order : Int) (hi : i < pg.length) :
    (set_page_order pg i order).getD j default =
      if i = j then { pg.getD i default with page_order := order } else pg.getD j default := by
  rw [set_page_order, getD_set_gen]
  by_cases h : i = j
  · rw [if_pos ⟨h, hi⟩, if_pos h]
  · rw [if_neg (fun hh => h hh.1), if_neg h]

theorem split_update_sized (g : Nat) (s1 : State) (A : Nat) (order : Int) (hs : s1.Sized) :
    (split_update g s1 A order).Sized := by
  obtain ⟨h1, h2⟩ := hs
  exact ⟨by simp [split_update, h1], by simp [split_update, set_page_order_length, h2]⟩

theorem split_update_list (g : Nat) (s1 : State) (A o o' : Nat) (hs : s1.Sized)
    (ho : o ≤ MAX_ORDER) :
    (split_update g s1 A (o : Int)).list o' =
      if o = o' then ADDR_TO_PAGE g (BUDDY_ADDR g A o) :: s1.list o else s1.list o' := by
  simp only [State.list, split_update, Int.toNat_ofNat, list_add]
  rw [getD_set_gen]
  by_cases h : o = o'
  · rw [if_pos ⟨h, by rw [hs.1]; omega⟩, if_pos h]
  · rw [if_neg (fun hh => h hh.1), if_neg h]

theorem split_update_page (g : Nat) (s1 : State) (A o i : Nat) (hs : s1.Sized)
    (hr : ADDR_TO_PAGE g (BUDDY_ADDR g A o) < N_PAGES) (hl : ADDR_TO_PAGE g A < N_PAGES) :
    (split_update g s1 A (o : Int)).page i =
      if i = ADDR_TO_PAGE g A ∨ i = ADDR_TO_PAGE g (BUDDY_ADDR g A o) then
        { s1.page i with page_order := (o : Int) }
      else s1.page i := by
  simp only [State.page, split_update, Int.toNat_ofNat]
  rw [set_page_order_getD _ _ _ _ (by rw [set_page_order_length, hs.2]; exact hl),
    set_page_order_getD _ _ _ _ (by rw [hs.2]; exact hr),
    set_page_order_getD _ _ _ _ (by rw [hs.2]; exact hr)]
  by_cases h1 : ADDR_TO_PAGE g A = i
  · subst h1
    rw [if_pos rfl, if_pos (Or.inl rfl)]
    by_cases h2 : ADDR_TO_PAGE g (BUDDY_ADDR g A o) = ADDR_TO_PAGE g A
    · rw [if_pos h2, h2]
    · rw [if_neg h2]
  · rw [if_neg h1]
    by_cases h2 : ADDR_TO_PAGE g (BUDDY_ADDR g A o) = i
    · rw [if_pos h2, if_pos (Or.inr h2.symm), h2]
    · rw [if_neg h2, if_neg (by rintro (h | h); exact h1 h.symm; exact h2 h.symm)]


/-! ### Sums over the orders -/

theorem sum_map_change (L : List Nat) (hnd : L.Nodup) (o d : Nat) (ho : o ∈ L) (f f' : Nat → Nat)
    (hne : ∀ i ∈ L, i ≠ o → f i = f' i) (heq : f o = f' o + d) :
    (L.map f).sum = (L.map f').sum + d := by
  induction L with
  | nil => exact absurd ho (List.not_mem_nil _)
  | cons a t ih =>
    rw [List.map_cons, List.map_cons, List.sum_cons, List.sum_cons]
    obtain ⟨hat, hndt⟩ := List.nodup_cons.mp hnd
    by_cases hao : a = o
    · subst hao
      have : t.map f = t.map f' := by
        apply List.map_congr_left
        intro i hi
        exact hne i (List.mem_cons_of_mem _ hi) (fun h => hat (h ▸ hi))
      rw [this, heq]; omega
    · have hot : o ∈ t := by
        rcases List.mem_cons.mp ho with h | h
        · exact absurd h.symm hao
        · exact h
      rw [ih hndt hot (fun i hi => hne i (List.mem_cons_of_mem _ hi)),
        hne a (List.mem_cons_self _ _) hao]
      omega

theorem order_mem_range (o : Nat) (h1 : MIN_ORDER ≤ o) (h2 : o ≤ MAX_ORDER) :
    o ∈ List.range' MIN_ORDER (MAX_ORDER + 1 - MIN_ORDER) := by
  rw [List.mem_range'_1]; simp only [MIN_ORDER, MAX_ORDER] at *; omega

theorem order_of_mem_range (o : Nat) (h : o ∈ List.range' MIN_ORDER (MAX_ORDER + 1 - MIN_ORDER)) :
    MIN_ORDER ≤ o ∧ o ≤ MAX_ORDER := by
  rw [List.mem_range'_1] at h; simp only [MIN_ORDER, MAX_ORDER] at *; omega

theorem free_bytes_change (s s' : State) (o d : Nat) (h1 : MIN_ORDER ≤ o) (h2 : o ≤ MAX_ORDER)
    (hne : ∀ i, MIN_ORDER ≤ i → i ≤ MAX_ORDER → i ≠ o → (s.list i).length = (s'.list i).length)
    (heq : (s.list o).length = (s'.list o).length + d) :
    s.free_bytes = s'.free_bytes + d * 2 ^ o := by
  unfold State.free_bytes
  apply sum_map_change _ (List.nodup_range' _ _) o _ (order_mem_range o h1 h2)
  · intro i hi hio
    obtain ⟨h3, h4⟩ := order_of_mem_range i hi
    show (s.list i).length * 2 ^ i = (s'.list i).length * 2 ^ i
    rw [hne i h3 h4 hio]
  · show (s.list o).length * 2 ^ o = (s'.list o).length * 2 ^ o + d * 2 ^ o
    rw [heq, Nat.add_mul]

/-! ### Consequences of the invariant -/

theorem inv_wellFormed {s : State} (h : s.Inv) : s.WellFormed := by
  obtain ⟨hs, hidx, hnd, hal, hdj, _, _⟩ := h
  refine ⟨hs, hidx, ?_, hnd, ?_⟩
  · intro o p h1 h2 hp
    obtain ⟨_, hb⟩ := hal o p h1 h2 hp
    have hpos : 0 < 2 ^ o := Nat.two_pow_pos o
    rw [two_pow_MAX_ORDER, PAGE_SIZE_eq] at hb
    rw [N_PAGES_eq]; omega
  · intro o o' p h1 h2 h1' h2' hp hp'
    by_contra hne
    have hpos : 0 < 2 ^ o := Nat.two_pow_pos o
    have hpos' : 0 < 2 ^ o' := Nat.two_pow_pos o'
    rcases hdj o p o' p h1 h2 h1' h2' hp hp' (Or.inl hne) with h | h <;> omega


/-! ### The invariant after taking a block from its list -/

theorem take_list (s : State) (o m : Nat) (hinv : s.Inv) (h1 : MIN_ORDER ≤ o)
    (h2 : o ≤ MAX_ORDER) (hm : m ∈ s.list o) (o' : Nat) (h1' : MIN_ORDER ≤ o')
    (h2' : o' ≤ MAX_ORDER) :
    State.list { s with free_area := list_del_init m s.free_area } o' =
      if o' = o then (s.list o).erase m else s.list o' := by
  rw [list_del_init_list]
  by_cases h : o' = o
  · rw [if_pos h, h]
  · rw [if_neg h]
    obtain ⟨_, _, _, _, huniq⟩ := inv_wellFormed hinv
    exact List.erase_of_not_mem fun hh => h (huniq o' o m h1' h2' h1 h2 hh hm)

theorem take_mem (s : State) (o m : Nat) (hinv : s.Inv) (h1 : MIN_ORDER ≤ o)
    (h2 : o ≤ MAX_ORDER) (hm : m ∈ s.list o) (o' p : Nat) (h1' : MIN_ORDER ≤ o')
    (h2' : o' ≤ MAX_ORDER) :
    p ∈ State.list { s with free_area := list_del_init m s.free_area } o' ↔
      p ∈ s.list o' ∧ (o' ≠ o ∨ p ≠ m) := by
  rw [take_list s o m hinv h1 h2 hm o' h1' h2']
  by_cases h : o' = o
  · subst h
    rw [if_pos rfl, List.Nodup.mem_erase_iff (hinv.2.2.1 o' h1 h2)]
    constructor
    · rintro ⟨h3, h4⟩; exact ⟨h4, Or.inr h3⟩
    · rintro ⟨h3, h4 | h4⟩
      · exact absurd rfl h4
      · exact ⟨h4, h3⟩
  · rw [if_neg h]
    exact ⟨fun h3 => ⟨h3, Or.inl h⟩, fun h3 => h3.1⟩

theorem take_inv (s : State) (o m : Nat) (hinv : s.Inv) (h1 : MIN_ORDER ≤ o)
    (h2 : o ≤ MAX_ORDER) (hm : m ∈ s.list o) :
    State.Inv { s with free_area := list_del_init m s.free_area } := by
  have hmem := take_mem s o m hinv h1 h2 hm
  have hlist := take_list s o m hinv h1 h2 hm
  obtain ⟨hs, hidx, hnd, hal, hdj, hpo, hrh⟩ := hinv
  refine ⟨?_, hidx, ?_, ?_, ?_, ?_, ?_⟩
  · exact ⟨by simp [list_del_init, hs.1], hs.2⟩
  · intro o' h1' h2'
    rw [hlist o' h1' h2']
    by_cases h : o' = o
    · rw [if_pos h]; exact (hnd o h1 h2).erase m
    · rw [if_neg h]; exact hnd o' h1' h2'
  · intro o' p h1' h2' hp
    exact hal o' p h1' h2' ((hmem o' p h1' h2').mp hp).1
  · intro o1 p1 o2 p2 a1 a2 b1 b2 hp1 hp2 hne
    exact hdj o1 p1 o2 p2 a1 a2 b1 b2 ((hmem o1 p1 a1 a2).mp hp1).1
      ((hmem o2 p2 b1 b2).mp hp2).1 hne
  · intro o' p h1' h2' hp
    exact hpo o' p h1' h2' ((hmem o' p h1' h2').mp hp).1
  · intro o' p h1' h2' hp
    exact hrh o' p h1' h2' ((hmem o' p h1' (le_of_lt h2')).mp hp).1

theorem take_free_at (s : State) (o m : Nat) (hinv : s.Inv) (h1 : MIN_ORDER ≤ o)
    (h2 : o ≤ MAX_ORDER) (hm : m ∈ s.list o) (x : Nat) :
    (s.free_at x ↔
      (State.free_at { s with free_area := list_del_init m s.free_area } x ∨
        (m * PAGE_SIZE ≤ x ∧ x < m * PAGE_SIZE + 2 ^ o))) ∧
    ¬ (State.free_at { s with free_area := list_del_init m s.free_area } x ∧
        (m * PAGE_SIZE ≤ x ∧ x < m * PAGE_SIZE + 2 ^ o)) := by
  have hmem := take_mem s o m hinv h1 h2 hm
  obtain ⟨hs, hidx, hnd, hal, hdj, hpo, hrh⟩ := hinv
  refine ⟨⟨?_, ?_⟩, ?_⟩
  · rintro ⟨o', p, h1', h2', hp, hx1, hx2⟩
    by_cases h : o' = o ∧ p = m
    · obtain ⟨rfl, rfl⟩ := h
      exact Or.inr ⟨hx1, hx2⟩
    · left
      refine ⟨o', p, h1', h2', (hmem o' p h1' h2').mpr ⟨hp, ?_⟩, hx1, hx2⟩
      by_contra hc
      push_neg at hc
      exact h hc
  · rintro (⟨o', p, h1', h2', hp, hx1, hx2⟩ | ⟨hx1, hx2⟩)
    · exact ⟨o', p, h1', h2', ((hmem o' p h1' h2').mp hp).1, hx1, hx2⟩
    · exact ⟨o, m, h1, h2, hm, hx1, hx2⟩
  · rintro ⟨⟨o', p, h1', h2', hp, hx1, hx2⟩, hx3, hx4⟩
    obtain ⟨hp1, hp2⟩ := (hmem o' p h1' h2').mp hp
    rcases hdj o' p o m h1' h2' h1 h2 hp1 hm hp2 with h | h <;> omega

theorem take_free_bytes (s : State) (o m : Nat) (hinv : s.Inv) (h1 : MIN_ORDER ≤ o)
    (h2 : o ≤ MAX_ORDER) (hm : m ∈ s.list o) :
    s.free_bytes =
      State.free_bytes { s with free_area := list_del_init m s.free_area } + 2 ^ o := by
  have hlist := take_list s o m hinv h1 h2 hm
  have := free_bytes_change s { s with free_area := list_del_init m s.free_area } o 1 h1 h2
    (fun i h3 h4 hne => by rw [hlist i h3 h4, if_neg hne])
    (by
      rw [hlist o h1 h2, if_pos rfl, List.length_erase_of_mem hm]
      have := List.length_pos_of_mem hm
      omega)
  rw [this, Nat.one_mul]


/-! ### The invariant after a split -/

theorem page_size_dvd_two_pow (o : Nat) (h : MIN_ORDER ≤ o) : PAGE_SIZE ∣ 2 ^ o := by
  rw [PAGE_SIZE_eq]
  exact ⟨2 ^ (o - 12), by
    rw [show (4096 : Nat) = 2 ^ 12 by norm_num, ← pow_add]
    congr 1; simp only [MIN_ORDER] at h; omega⟩

theorem not_free_disjoint (s1 : State) (lo hi : Nat) (hlt : lo < hi)
    (hfree : ∀ x, lo ≤ x → x < hi → ¬ s1.free_at x) (o' p' : Nat) (h1 : MIN_ORDER ≤ o')
    (h2 : o' ≤ MAX_ORDER) (hp : p' ∈ s1.list o') :
    hi ≤ p' * PAGE_SIZE ∨ p' * PAGE_SIZE + 2 ^ o' ≤ lo := by
  have hpos : 0 < 2 ^ o' := Nat.two_pow_pos o'
  by_contra hc
  push_neg at hc
  rcases le_total lo (p' * PAGE_SIZE) with h | h
  · exact hfree (p' * PAGE_SIZE) h hc.1 ⟨o', p', h1, h2, hp, le_refl _, by omega⟩
  · exact hfree lo (le_refl _) hlt ⟨o', p', h1, h2, hp, h, hc.2⟩

/-- Page positions of the two halves of an aligned block of order `o + 1` at offset `a`. -/
theorem split_pages (g a o : Nat) (hg : ValidBase g) (h1 : MIN_ORDER ≤ o)
    (hd : 2 ^ (o + 1) ∣ a) (hb : a + 2 ^ (o + 1) ≤ 2 ^ MAX_ORDER) :
    ADDR_TO_PAGE g (BUDDY_ADDR g (g + a) o) * PAGE_SIZE = a + 2 ^ o ∧
    ADDR_TO_PAGE g (g + a) * PAGE_SIZE = a ∧
    ADDR_TO_PAGE g (BUDDY_ADDR g (g + a) o) < N_PAGES ∧
    ADDR_TO_PAGE g (g + a) < N_PAGES := by
  have hpos : 0 < 2 ^ o := Nat.two_pow_pos o
  have h2 : 2 ^ (o + 1) = 2 * 2 ^ o := by rw [pow_succ]; omega
  have hd' : 2 ^ o ∣ a := Dvd.dvd.trans ⟨2, by rw [h2]; omega⟩ hd
  have hp1 : PAGE_SIZE ∣ a := Dvd.dvd.trans (page_size_dvd_two_pow o h1) hd'
  have hp2 : PAGE_SIZE ∣ a + 2 ^ o := Dvd.dvd.add hp1 (page_size_dvd_two_pow o h1)
  rw [BUDDY_ADDR_left g a o hg hd hb, Nat.add_assoc,
    ADDR_TO_PAGE_eq g (a + 2 ^ o) hg (by omega), ADDR_TO_PAGE_eq g a hg (by omega),
    Nat.div_mul_cancel hp1, Nat.div_mul_cancel hp2]
  refine ⟨rfl, rfl, ?_, ?_⟩
  · rw [N_PAGES_eq]
    rw [two_pow_MAX_ORDER] at hb
    rw [PAGE_SIZE_eq]
    omega
  · rw [N_PAGES_eq]
    rw [two_pow_MAX_ORDER] at hb
    rw [PAGE_SIZE_eq]
    omega

theorem split_mem (g : Nat) (s1 : State) (a o : Nat) (hs : s1.Sized) (ho : o ≤ MAX_ORDER)
    (o' p : Nat) :
    p ∈ (split_update g s1 (g + a) (o : Int)).list o' ↔
      p ∈ s1.list o' ∨ (o' = o ∧ p = ADDR_TO_PAGE g (BUDDY_ADDR g (g + a) o)) := by
  rw [split_update_list g s1 (g + a) o o' hs ho]
  by_cases h : o = o'
  · subst h
    rw [if_pos rfl, List.mem_cons]
    constructor
    · rintro (h | h)
      · exact Or.inr ⟨rfl, h⟩
      · exact Or.inl h
    · rintro (h | ⟨_, h⟩)
      · exact Or.inr h
      · exact Or.inl h
  · rw [if_neg h]
    constructor
    · exact fun h' => Or.inl h'
    · rintro (h' | ⟨h', _⟩)
      · exact h'
      · exact absurd h'.symm h


theorem split_inv (g : Nat) (s1 : State) (a o : Nat) (hg : ValidBase g) (hinv : s1.Inv)
    (h1 : MIN_ORDER ≤ o) (h2 : o < MAX_ORDER) (hd : 2 ^ (o + 1) ∣ a)
    (hb : a + 2 ^ (o + 1) ≤ 2 ^ MAX_ORDER)
    (hfree : ∀ x, a ≤ x → x < a + 2 ^ (o + 1) → ¬ s1.free_at x) :
    (split_update g s1 (g + a) (o : Int)).Inv := by
  obtain ⟨hrp, hsp, hrb, hsb⟩ := split_pages g a o hg h1 hd hb
  obtain ⟨hs, hidx, hnd, hal, hdj, hpo, hrh⟩ := hinv
  have hmem := split_mem g s1 a o hs (le_of_lt h2)
  have hpage := fun i => split_update_page g s1 (g + a) o i hs hrb hsb
  have hpos : 0 < 2 ^ o := Nat.two_pow_pos o
  have hpow : 2 ^ (o + 1) = 2 * 2 ^ o := by rw [pow_succ]; omega
  have hd' : 2 ^ o ∣ a := Dvd.dvd.trans ⟨2, by rw [hpow]; omega⟩ hd
  have hsep := not_free_disjoint s1 a (a + 2 ^ (o + 1)) (by omega) hfree
  refine ⟨split_update_sized g s1 _ _ hs, ?_, ?_, ?_, ?_, ?_, ?_⟩
  · intro i hi
    rw [hpage i]
    split
    · exact hidx i hi
    · exact hidx i hi
  · intro o' h1' h2'
    rw [split_update_list g s1 (g + a) o o' hs (le_of_lt h2)]
    by_cases h : o = o'
    · subst h
      rw [if_pos rfl, List.nodup_cons]
      refine ⟨fun hin => ?_, hnd o h1' h2'⟩
      rcases hsep o _ h1' h2' hin with h | h <;> omega
    · rw [if_neg h]; exact hnd o' h1' h2'
  · intro o' p h1' h2' hp
    rcases (hmem o' p).mp hp with hp | ⟨rfl, rfl⟩
    · exact hal o' p h1' h2' hp
    · rw [hrp]
      exact ⟨Dvd.dvd.add hd' (dvd_refl _), by omega⟩
  · intro o1 p1 o2 p2 a1 a2 b1 b2 hp1 hp2 hne
    rcases (hmem o1 p1).mp hp1 with hq1 | ⟨e1, e1'⟩
    · rcases (hmem o2 p2).mp hp2 with hq2 | ⟨e2, e2'⟩
      · exact hdj o1 p1 o2 p2 a1 a2 b1 b2 hq1 hq2 hne
      · rw [e2, e2', hrp]
        rcases hsep o1 p1 a1 a2 hq1 with h | h
        · right; omega
        · left; omega
    · rcases (hmem o2 p2).mp hp2 with hq2 | ⟨e2, e2'⟩
      · rw [e1, e1', hrp]
        rcases hsep o2 p2 b1 b2 hq2 with h | h
        · left; omega
        · right; omega
      · rcases hne with h | h
        · exact absurd (e1.trans e2.symm) h
        · exact absurd (e1'.trans e2'.symm) h
  · intro o' p h1' h2' hp
    rw [hpage p]
    rcases (hmem o' p).mp hp with hp | ⟨rfl, rfl⟩
    · have hpos' : 0 < 2 ^ o' := Nat.two_pow_pos o'
      have hne : ¬ (p = ADDR_TO_PAGE g (g + a) ∨
          p = ADDR_TO_PAGE g (BUDDY_ADDR g (g + a) o)) := by
        rintro (h | h)
        · rw [h] at hp
          rcases hsep o' _ h1' h2' hp with h | h <;> omega
        · rw [h] at hp
          rcases hsep o' _ h1' h2' hp with h | h <;> omega
      rw [if_neg hne]
      exact hpo o' p h1' h2' hp
    · rw [if_pos (Or.inr rfl)]
  · intro o' p h1' h2' hp
    rcases (hmem o' p).mp hp with hp | ⟨rfl, rfl⟩
    · exact hrh o' p h1' h2' hp
    · rw [hrp]
      obtain ⟨q, hq⟩ := hd
      have e : a + 2 ^ o' = 2 ^ o' * (2 * q + 1) := by rw [hq, hpow]; ring
      rw [e, Nat.mul_div_cancel_left _ hpos]
      omega

theorem split_free_at (g : Nat) (s1 : State) (a o : Nat) (hg : ValidBase g) (hinv : s1.Inv)
    (h1 : MIN_ORDER ≤ o) (h2 : o < MAX_ORDER) (hd : 2 ^ (o + 1) ∣ a)
    (hb : a + 2 ^ (o + 1) ≤ 2 ^ MAX_ORDER) (x : Nat) :
    (split_update g s1 (g + a) (o : Int)).free_at x ↔
      (s1.free_at x ∨ (a + 2 ^ o ≤ x ∧ x < a + 2 ^ (o + 1))) := by
  obtain ⟨hrp, _, _, _⟩ := split_pages g a o hg h1 hd hb
  have hmem := split_mem g s1 a o hinv.1 (le_of_lt h2)
  have hpow : 2 ^ (o + 1) = 2 * 2 ^ o := by rw [pow_succ]; omega
  constructor
  · rintro ⟨o', p, h1', h2', hp, hx1, hx2⟩
    rcases (hmem o' p).mp hp with hp | ⟨rfl, rfl⟩
    · exact Or.inl ⟨o', p, h1', h2', hp, hx1, hx2⟩
    · rw [hrp] at hx1 hx2
      exact Or.inr ⟨hx1, by omega⟩
  · rintro (⟨o', p, h1', h2', hp, hx1, hx2⟩ | ⟨hx1, hx2⟩)
    · exact ⟨o', p, h1', h2', (hmem o' p).mpr (Or.inl hp), hx1, hx2⟩
    · refine ⟨o, _, h1, le_of_lt h2, (hmem o _).mpr (Or.inr ⟨rfl, rfl⟩), ?_, ?_⟩
      · rw [hrp]; exact hx1
      · rw [hrp]; omega

theorem split_free_bytes (g : Nat) (s1 : State) (a o : Nat) (hs : s1.Sized)
    (h1 : MIN_ORDER ≤ o) (h2 : o ≤ MAX_ORDER) :
    (split_update g s1 (g + a) (o : Int)).free_bytes = s1.free_bytes + 2 ^ o := by
  have hlist := fun o' => split_update_list g s1 (g + a) o o' hs h2
  have := free_bytes_change (split_update g s1 (g + a) (o : Int)) s1 o 1 h1 h2
    (fun i _ _ hne => by rw [hlist i, if_neg (fun h => hne h.symm)])
    (by rw [hlist o, if_pos rfl, List.length_cons])
  rw [this, Nat.one_mul]


/-! ### get_free_block on states satisfying the invariant -/

/-- In the take branch the member with the lowest index is removed and returned. -/
theorem get_free_block_take_inv (fuel g : Nat) (s : State) (o : Nat) (hinv : s.Inv)
    (ho : MIN_ORDER ≤ o) (ho' : o ≤ MAX_ORDER) (hne : s.list o ≠ []) :
    ∃ m, m ∈ s.list o ∧ (∀ p ∈ s.list o, m ≤ p) ∧
      get_free_block (fuel + 1) g s (o : Int) =
        .ret (PAGE_TO_ADDR g m, { s with free_area := list_del_init m s.free_area }) := by
  obtain ⟨_, hidx, hbd, _, _⟩ := inv_wellFormed hinv
  have hb : ∀ p ∈ s.list o, p < N_PAGES := fun p hp => hbd o p ho ho' hp
  have hi : ∀ p ∈ s.list o, (s.g_pages.getD p default).index = (p : Int) :=
    fun p hp => hidx p (hb p hp)
  obtain ⟨m, hm, hmin, hlow⟩ := lowest_index_min s.g_pages (s.list o) hne hi hb
  have hnf : ¬ (lowest_index s.g_pages (s.list o) < 0 ∨
      (N_PAGES : Int) ≤ lowest_index s.g_pages (s.list o)) := by
    rw [hlow]
    have := hb m hm
    omega
  refine ⟨m, hm, hmin, ?_⟩
  rw [get_free_block_take fuel g s o ho ho' hne, if_neg hnf, hlow, Int.toNat_ofNat]

theorem get_free_block_ret (g : Nat) (hg : ValidBase g) (fuel : Nat) :
    ∀ (s : State) (o A : Nat) (s' : State), s.Inv → MIN_ORDER ≤ o → o ≤ MAX_ORDER →
      get_free_block fuel g s (o : Int) = .ret (A, s') →
      ∃ a, A = g + a ∧ 2 ^ o ∣ a ∧ a + 2 ^ o ≤ 2 ^ MAX_ORDER ∧ s'.Inv ∧
        (∀ x, s.free_at x ↔ (s'.free_at x ∨ (a ≤ x ∧ x < a + 2 ^ o))) ∧
        (∀ x, a ≤ x → x < a + 2 ^ o → ¬ s'.free_at x) ∧
        s.free_bytes = s'.free_bytes + 2 ^ o := by
  induction fuel with
  | zero =>
    intro s o A s' _ _ _ h
    rw [get_free_block_zero] at h
    exact absurd h (by simp)
  | succ k ih =>
    intro s o A s' hinv ho ho' h
    have hpos : 0 < 2 ^ o := Nat.two_pow_pos o
    by_cases he : s.list o = []
    · rw [get_free_block_split k g s o ho ho' he] at h
      cases hrec : get_free_block k g s ((o : Int) + 1) with
      | fault => rw [hrec] at h; exact absurd h (by simp)
      | timeout => rw [hrec] at h; exact absurd h (by simp)
      | ret v =>
        obtain ⟨A1, s1⟩ := v
        rw [hrec] at h
        simp only at h
        by_cases hmax : o = MAX_ORDER
        · exfalso
          cases k with
          | zero => rw [get_free_block_zero] at hrec; exact absurd hrec (by simp)
          | succ k' =>
            rw [get_free_block_out_of_range k' g s _
              (Or.inl (by rw [hmax]; omega))] at hrec
            simp only [Result.ret.injEq, Prod.mk.injEq] at hrec
            rw [← hrec.1] at h
            have := ADDR_TO_PAGE_NULL g hg
            by_cases hc : N_PAGES ≤ ADDR_TO_PAGE g (BUDDY_ADDR g NULL o)
            · rw [if_pos hc] at h; exact absurd h (by simp)
            · rw [if_neg hc, if_pos this] at h; exact absurd h (by simp)
        · have hlt : o < MAX_ORDER := lt_of_le_of_ne ho' hmax
          have hcast : (o : Int) + 1 = ((o + 1 : Nat) : Int) := by push_cast; rfl
          rw [hcast] at hrec
          obtain ⟨a, hA, hd, hb, hinv1, hfa, hex, hfb⟩ :=
            ih s (o + 1) A1 s1 hinv (by omega) (by omega) hrec
          subst hA
          obtain ⟨hrp, hsp, hrb, hsb⟩ := split_pages g a o hg ho hd hb
          rw [if_neg (by omega), if_neg (by omega)] at h
          simp only [Result.ret.injEq, Prod.mk.injEq] at h
          obtain ⟨hA, hs'⟩ := h
          subst hA hs'
          have hpow : 2 ^ (o + 1) = 2 * 2 ^ o := by rw [pow_succ]; omega
          have hsfa := split_free_at g s1 a o hg hinv1 ho hlt hd hb
          refine ⟨a, rfl, Dvd.dvd.trans ⟨2, by rw [hpow]; omega⟩ hd, by omega,
            split_inv g s1 a o hg hinv1 ho hlt hd hb hex, ?_, ?_, ?_⟩
          · intro x
            rw [hfa x, hsfa x]
            constructor
            · rintro (h | ⟨h1, h2⟩)
              · exact Or.inl (Or.inl h)
              · by_cases hx : x < a + 2 ^ o
                · exact Or.inr ⟨h1, hx⟩
                · exact Or.inl (Or.inr ⟨by omega, h2⟩)
            · rintro ((h | ⟨h1, h2⟩) | ⟨h1, h2⟩)
              · exact Or.inl h
              · exact Or.inr ⟨by omega, h2⟩
              · exact Or.inr ⟨h1, by omega⟩
          · intro x hx1 hx2 hfx
            rcases (hsfa x).mp hfx with h | ⟨h1, _⟩
            · exact hex x hx1 (by omega) h
            · omega
          · rw [hfb, split_free_bytes g s1 a o hinv1.1 ho ho', hpow]; omega
    · obtain ⟨m, hm, _, hres⟩ := get_free_block_take_inv k g s o hinv ho ho' he
      rw [hres] at h
      simp only [Result.ret.injEq, Prod.mk.injEq] at h
      obtain ⟨hA, hs'⟩ := h
      subst hA hs'
      obtain ⟨hal1, hal2⟩ := hinv.2.2.2.1 o m ho ho' hm
      refine ⟨m * PAGE_SIZE, PAGE_TO_ADDR_eq g m hg (by omega), hal1, hal2,
        take_inv s o m hinv ho ho' hm, ?_, ?_, take_free_bytes s o m hinv ho ho' hm⟩
      · intro x; exact (take_free_at s o m hinv ho ho' hm x).1
      · intro x hx1 hx2 hfx
        exact (take_free_at s o m hinv ho ho' hm x).2 ⟨hfx, hx1, hx2⟩


theorem get_free_block_total (g : Nat) (hg : ValidBase g) (fuel : Nat) :
    ∀ (s : State) (o : Nat), s.Inv → MIN_ORDER ≤ o → o ≤ MAX_ORDER → MAX_ORDER + 2 ≤ fuel + o →
      ((∀ o', o ≤ o' → o' ≤ MAX_ORDER → s.list o' = []) →
        get_free_block fuel g s (o : Int) = .fault) ∧
      ((∃ o', o ≤ o' ∧ o' ≤ MAX_ORDER ∧ s.list o' ≠ []) →
        ∃ A s', get_free_block fuel g s (o : Int) = .ret (A, s')) := by
  induction fuel with
  | zero =>
    intro s o _ _ ho' hf
    omega
  | succ k ih =>
    intro s o hinv ho ho' hf
    by_cases he : s.list o = []
    · rw [get_free_block_split k g s o ho ho' he]
      by_cases hmax : o = MAX_ORDER
      · obtain ⟨k', rfl⟩ : ∃ k', k = k' + 1 := ⟨k - 1, by omega⟩
        rw [get_free_block_out_of_range k' g s _ (Or.inl (by rw [hmax]; omega))]
        have hnull := ADDR_TO_PAGE_NULL g hg
        have hres : (if N_PAGES ≤ ADDR_TO_PAGE g (BUDDY_ADDR g NULL o) then
            (Result.fault : Result (Nat × State))
            else if N_PAGES ≤ ADDR_TO_PAGE g NULL then Result.fault
            else Result.ret (NULL, split_update g s NULL (o : Int))) = Result.fault := by
          by_cases hc : N_PAGES ≤ ADDR_TO_PAGE g (BUDDY_ADDR g NULL o)
          · rw [if_pos hc]
          · rw [if_neg hc, if_pos hnull]
        refine ⟨fun _ => hres, ?_⟩
        rintro ⟨o', h1, h2, h3⟩
        have : o' = o := by omega
        rw [this] at h3
        exact absurd he h3
      · have hlt : o < MAX_ORDER := lt_of_le_of_ne ho' hmax
        have hcast : (o : Int) + 1 = ((o + 1 : Nat) : Int) := by push_cast; rfl
        rw [hcast]
        obtain ⟨ih1, ih2⟩ := ih s (o + 1) hinv (by omega) (by omega) (by omega)
        refine ⟨fun hall => ?_, ?_⟩
        · rw [ih1 (fun o' h1 h2 => hall o' (by omega) h2)]
        · rintro ⟨o', h1, h2, h3⟩
          have hne : o' ≠ o := fun h => h3 (h ▸ he)
          obtain ⟨A1, s1, hrec⟩ := ih2 ⟨o', by omega, h2, h3⟩
          obtain ⟨a, hA, hd, hb, _⟩ :=
            get_free_block_ret g hg k s (o + 1) A1 s1 hinv (by omega) (by omega) hrec
          subst hA
          obtain ⟨_, _, hrb, hsb⟩ := split_pages g a o hg ho hd hb
          rw [hrec]
          simp only
          rw [if_neg (by omega), if_neg (by omega)]
          exact ⟨_, _, rfl⟩
    · obtain ⟨m, _, _, hres⟩ := get_free_block_take_inv k g s o hinv ho ho' he
      refine ⟨fun hall => absurd (hall o (le_refl _) ho') he, fun _ => ⟨_, _, hres⟩⟩


/-! ### buddy_init and buddy_alloc on the invariant -/

theorem buddy_init_inv (g : Nat) (s : State) (hs : s.Sized) : (buddy_init g s).Inv := by
  have hl := buddy_init_list g s hs
  have hempty : ∀ o p, MIN_ORDER ≤ o → o ≤ MAX_ORDER → p ∈ (buddy_init g s).list o →
      o = MAX_ORDER ∧ p = 0 := by
    intro o p h1 h2 hp
    rw [hl o] at hp
    by_cases h : o = MAX_ORDER
    · rw [if_pos h] at hp; exact ⟨h, List.mem_singleton.mp hp⟩
    · rw [if_neg h, if_pos ⟨h1, lt_of_le_of_ne h2 h⟩] at hp
      exact absurd hp (List.not_mem_nil _)
  obtain ⟨hsz, hidx, _, hnd, _⟩ := buddy_init_wellFormed g s hs
  refine ⟨hsz, hidx, hnd, ?_, ?_, ?_, ?_⟩
  · intro o p h1 h2 hp
    obtain ⟨rfl, rfl⟩ := hempty o p h1 h2 hp
    simp
  · intro o p o' p' h1 h2 h1' h2' hp hp' hne
    obtain ⟨rfl, rfl⟩ := hempty o p h1 h2 hp
    obtain ⟨rfl, rfl⟩ := hempty o' p' h1' h2' hp'
    rcases hne with h | h <;> exact absurd rfl h
  · intro o p h1 h2 hp
    obtain ⟨rfl, rfl⟩ := hempty o p h1 h2 hp
    rw [buddy_init_page g s hs 0 (by rw [N_PAGES_eq]; decide)]
  · intro o p h1 h2 hp
    obtain ⟨h, _⟩ := hempty o p h1 (le_of_lt h2) hp
    omega

theorem get_order_ge (fuel : Nat) (size order : Int) (h : get_order fuel size = some order) :
    (MIN_ORDER : Int) ≤ order := by
  unfold get_order at h
  cases hl : get_order_loop fuel (size - 1) 1 with
  | none => rw [hl] at h; exact absurd h (by simp)
  | some ord =>
    rw [hl] at h
    simp only at h
    by_cases hc : ord < (MIN_ORDER : Int)
    · rw [if_pos hc] at h
      simp only [Option.some.injEq] at h
      omega
    · rw [if_neg hc] at h
      simp only [Option.some.injEq] at h
      omega

/-- What a returning call of `buddy_alloc` does on a state satisfying the invariant. -/
theorem buddy_alloc_ret (g : Nat) (hg : ValidBase g) (fuel : Nat) (s : State) (size : Int)
    (A : Nat) (s' : State) (hinv : s.Inv) (h : buddy_alloc fuel g s size = .ret (A, s')) :
    ∃ o : Nat, get_order fuel size = some (o : Int) ∧ MIN_ORDER ≤ o ∧
      ((MAX_ORDER < o ∧ A = NULL ∧ s' = s) ∨
       (o ≤ MAX_ORDER ∧ ∃ a, A = g + a ∧ 2 ^ o ∣ a ∧ a + 2 ^ o ≤ 2 ^ MAX_ORDER ∧ s'.Inv ∧
        (∀ x, s.free_at x ↔ (s'.free_at x ∨ (a ≤ x ∧ x < a + 2 ^ o))) ∧
        (∀ x, a ≤ x → x < a + 2 ^ o → ¬ s'.free_at x) ∧
        s.free_bytes = s'.free_bytes + 2 ^ o)) := by
  unfold buddy_alloc at h
  cases ho : get_order fuel size with
  | none => rw [ho] at h; exact absurd h (by simp)
  | some order =>
    rw [ho] at h
    simp only at h
    have hge := get_order_ge fuel size order ho
    obtain ⟨o, rfl⟩ : ∃ o : Nat, order = (o : Int) := ⟨order.toNat, by omega⟩
    have hge' : MIN_ORDER ≤ o := by exact_mod_cast hge
    refine ⟨o, rfl, hge', ?_⟩
    by_cases hmax : o ≤ MAX_ORDER
    · exact Or.inr ⟨hmax, get_free_block_ret g hg fuel s o A s' hinv hge' hmax h⟩
    · left
      cases fuel with
      | zero => rw [get_free_block_zero] at h; exact absurd h (by simp)
      | succ k =>
        rw [get_free_block_out_of_range k g s _ (Or.inl (by omega))] at h
        simp only [Result.ret.injEq, Prod.mk.injEq] at h
        exact ⟨by omega, h.1.symm, h.2.symm⟩

theorem reachable_inv (g : Nat) (hg : ValidBase g) (s : State) (h : Reachable g s) : s.Inv := by
  induction h with
  | init s0 hs => exact buddy_init_inv g s0 hs
  | alloc fuel s size a s' _ h ih =>
    obtain ⟨o, _, _, hc⟩ := buddy_alloc_ret g hg fuel s size a s' ih h
    rcases hc with ⟨_, _, hs⟩ | ⟨_, _, _, _, _, hinv, _⟩
    · rw [hs]; exact ih
    · exact hinv
  | free s addr _ ih => exact ih


/-- A call for order `o` leaves the free lists of the orders below `o` as they are. -/
theorem get_free_block_frame_below (g : Nat) (hg : ValidBase g) (fuel : Nat) :
    ∀ (s : State) (o A : Nat) (s' : State), s.Inv → MIN_ORDER ≤ o → o ≤ MAX_ORDER →
      get_free_block fuel g s (o : Int) = .ret (A, s') →
      ∀ o', MIN_ORDER ≤ o' → o' < o → s'.list o' = s.list o' := by
  induction fuel with
  | zero =>
    intro s o A s' _ _ _ h
    rw [get_free_block_zero] at h
    exact absurd h (by simp)
  | succ k ih =>
    intro s o A s' hinv ho ho' h o' h1 h2
    by_cases he : s.list o = []
    · rw [get_free_block_split k g s o ho ho' he] at h
      cases hrec : get_free_block k g s ((o : Int) + 1) with
      | fault => rw [hrec] at h; exact absurd h (by simp)
      | timeout => rw [hrec] at h; exact absurd h (by simp)
      | ret v =>
        obtain ⟨A1, s1⟩ := v
        rw [hrec] at h
        simp only at h
        by_cases hc1 : N_PAGES ≤ ADDR_TO_PAGE g (BUDDY_ADDR g A1 o)
        · rw [if_pos hc1] at h; exact absurd h (by simp)
        · by_cases hc2 : N_PAGES ≤ ADDR_TO_PAGE g A1
          · rw [if_neg hc1, if_pos hc2] at h; exact absurd h (by simp)
          · rw [if_neg hc1, if_neg hc2] at h
            simp only [Result.ret.injEq, Prod.mk.injEq] at h
            obtain ⟨_, hs'⟩ := h
            subst hs'
            by_cases hmax : o = MAX_ORDER
            · exfalso
              cases k with
              | zero => rw [get_free_block_zero] at hrec; exact absurd hrec (by simp)
              | succ k' =>
                rw [get_free_block_out_of_range k' g s _
                  (Or.inl (by rw [hmax]; omega))] at hrec
                simp only [Result.ret.injEq, Prod.mk.injEq] at hrec
                rw [← hrec.1] at hc2
                exact hc2 (ADDR_TO_PAGE_NULL g hg)
            · have hlt : o < MAX_ORDER := lt_of_le_of_ne ho' hmax
              have hcast : (o : Int) + 1 = ((o + 1 : Nat) : Int) := by push_cast; rfl
              rw [hcast] at hrec
              have hinv1 := (get_free_block_ret g hg k s (o + 1) A1 s1 hinv (by omega)
                (by omega) hrec).choose_spec.2.2.2.1
              rw [split_update_list g s1 A1 o o' hinv1.1 ho', if_neg (by omega)]
              exact ih s (o + 1) A1 s1 hinv (by omega) (by omega) hrec o' h1 (by omega)
    · obtain ⟨m, hm, _, hres⟩ := get_free_block_take_inv k g s o hinv ho ho' he
      rw [hres] at h
      simp only [Result.ret.injEq, Prod.mk.injEq] at h
      obtain ⟨_, hs'⟩ := h
      subst hs'
      rw [take_list s o m hinv ho ho' hm o' h1 (by omega), if_neg (by omega)]

/-- C3: in a reachable state, for `order` in `[MIN_ORDER, MAX_ORDER)` with `free_area[order]`
empty, if the nested call `get_free_block(order+1)` returns the superblock `A`, then
`get_free_block(order)` returns `A` (not `NULL`), the right half is at `A + 2^order`, the
head pages of `A` and of `A + 2^order` get `page_order = order`, no other page record
changes, and `free_area[order]` becomes the one-element list of the right half while the
other lists stay as the nested call left them. -/
theorem get_free_block_split_left (g : Nat) (hg : ValidBase g) (fuel : Nat) (s : State)
    (order A : Nat) (s1 : State) (hr : Reachable g s) (ho : MIN_ORDER ≤ order)
    (ho' : order < MAX_ORDER) (he : s.list order = [])
    (hrec : get_free_block fuel g s ((order : Int) + 1) = .ret (A, s1)) :
    ∃ s', get_free_block (fuel + 1) g s (order : Int) = .ret (A, s') ∧ A ≠ NULL ∧
      BUDDY_ADDR g A order = A + 2 ^ order ∧
      (s'.page (ADDR_TO_PAGE g A)).page_order = (order : Int) ∧
      (s'.page (ADDR_TO_PAGE g (A + 2 ^ order))).page_order = (order : Int) ∧
      (∀ i, i ≠ ADDR_TO_PAGE g A → i ≠ ADDR_TO_PAGE g (A + 2 ^ order) →
        s'.page i = s1.page i) ∧
      s1.list order = [] ∧
      s'.list order = [ADDR_TO_PAGE g (A + 2 ^ order)] ∧
      (∀ o, o ≠ order → s'.list o = s1.list o) := by
  have hinv := reachable_inv g hg s hr
  have hcast : (order : Int) + 1 = ((order + 1 : Nat) : Int) := by push_cast; rfl
  have hrec' := hrec
  rw [hcast] at hrec'
  obtain ⟨a, hA, hd, hb, hinv1, _⟩ :=
    get_free_block_ret g hg fuel s (order + 1) A s1 hinv (by omega) (by omega) hrec'
  subst hA
  obtain ⟨_, _, hrb, hsb⟩ := split_pages g a order hg ho hd hb
  have hbud := BUDDY_ADDR_left g a order hg hd hb
  have hs1 : s1.list order = [] := by
    rw [get_free_block_frame_below g hg fuel s (order + 1) (g + a) s1 hinv (by omega)
      (by omega) hrec' order ho (by omega)]
    exact he
  have hpage := fun i => split_update_page g s1 (g + a) order i hinv1.1 hrb hsb
  have hlist := fun o => split_update_list g s1 (g + a) order o hinv1.1 (le_of_lt ho')
  refine ⟨split_update g s1 (g + a) (order : Int), ?_, ?_, hbud, ?_, ?_, ?_, hs1, ?_, ?_⟩
  · rw [get_free_block_split fuel g s order ho (le_of_lt ho') he, hrec]
    simp only
    rw [if_neg (by omega), if_neg (by omega)]
  · have := hg.1
    rw [NULL]; omega
  · rw [hpage, if_pos (Or.inl rfl)]
  · rw [← hbud, hpage, if_pos (Or.inr rfl)]
  · intro i h1 h2
    rw [← hbud] at h2
    rw [hpage, if_neg (by rintro (h | h); exact h1 h; exact h2 h)]
  · rw [hlist, if_pos rfl, hs1, hbud]
  · intro o hne
    rw [hlist, if_neg (fun h => hne h.symm)]


/-! ### Exhaustion by page-sized requests -/

theorem free_bytes_zero (s : State) (h : s.free_bytes = 0) (o : Nat) (h1 : MIN_ORDER ≤ o)
    (h2 : o ≤ MAX_ORDER) : s.list o = [] := by
  unfold State.free_bytes at h
  have hz : ∀ x ∈ (List.range' MIN_ORDER (MAX_ORDER + 1 - MIN_ORDER)).map
      (fun o => (s.list o).length * 2 ^ o), x = 0 := by
    intro x hx
    by_contra hne
    have := List.single_le_sum (fun y _ => Nat.zero_le y) x hx
    omega
  have := hz _ (List.mem_map.mpr ⟨o, order_mem_range o h1 h2, rfl⟩)
  have hpos : 0 < 2 ^ o := Nat.two_pow_pos o
  have hl : (s.list o).length = 0 := by
    rcases Nat.mul_eq_zero.mp this with h | h
    · exact h
    · omega
  exact List.length_eq_zero.mp hl

theorem buddy_init_free_bytes (g : Nat) (s : State) (hs : s.Sized) :
    (buddy_init g s).free_bytes = 2 ^ MAX_ORDER := by
  have hl := buddy_init_list g s hs
  unfold State.free_bytes
  rw [show List.range' MIN_ORDER (MAX_ORDER + 1 - MIN_ORDER) =
    [12, 13, 14, 15, 16, 17, 18, 19, 20] by decide]
  simp [hl, MAX_ORDER, MIN_ORDER]

theorem get_order_4096 (fuel : Nat) (hf : 31 ≤ fuel) : get_order fuel 4096 = some 12 := by
  obtain ⟨o, ho, h12, _, hmin⟩ := get_order_least_aux fuel 4096 hf (by decide) (by decide)
  have hu : o ≤ 12 := hmin 12 (by decide) (by norm_num)
  rw [ho, le_antisymm hu h12]; rfl

theorem buddy_alloc_4096 (fuel g : Nat) (s : State) (hf : 31 ≤ fuel) :
    buddy_alloc fuel g s 4096 = get_free_block fuel g s ((12 : Nat) : Int) := by
  unfold buddy_alloc
  rw [get_order_4096 fuel hf]
  rfl

theorem alloc_many_4096 (g : Nat) (hg : ValidBase g) (fuel : Nat) (hf : 31 ≤ fuel) (n : Nat) :
    ∀ s : State, s.Inv → 4096 * n ≤ s.free_bytes →
      ∃ addrs s', alloc_many fuel g 4096 n s = .ret (addrs, s') ∧ addrs.length = n ∧
        addrs.Nodup ∧ s'.Inv ∧ s.free_bytes = s'.free_bytes + 4096 * n ∧
        (∀ x, s'.free_at x → s.free_at x) ∧
        (∀ A ∈ addrs, ∃ a, A = g + a ∧ PAGE_SIZE ∣ a ∧ a + 4096 ≤ 2 ^ MAX_ORDER ∧
          s.free_at a) := by
  induction n with
  | zero =>
    intro s hinv _
    exact ⟨[], s, rfl, rfl, List.nodup_nil, hinv, by omega, fun _ h => h,
      fun A hA => absurd hA (List.not_mem_nil _)⟩
  | succ n ih =>
    intro s hinv hfb
    have hne : ∃ o', 12 ≤ o' ∧ o' ≤ MAX_ORDER ∧ s.list o' ≠ [] := by
      by_contra hc
      push_neg at hc
      have : s.free_bytes = 0 := by
        unfold State.free_bytes
        apply List.sum_eq_zero
        intro x hx
        obtain ⟨o, ho, rfl⟩ := List.mem_map.mp hx
        obtain ⟨h1, h2⟩ := order_of_mem_range o ho
        rw [hc o h1 h2, List.length_nil, Nat.zero_mul]
      omega
    obtain ⟨A, s1, hres⟩ := (get_free_block_total g hg fuel s 12 hinv (by decide) (by decide)
      (by simp only [MAX_ORDER]; omega)).2 hne
    obtain ⟨a, hA, hd, hb, hinv1, hfa, hex, hfb1⟩ :=
      get_free_block_ret g hg fuel s 12 A s1 hinv (by decide) (by decide) hres
    subst hA
    obtain ⟨addrs, s', hrun, hlen, hnd, hinv', hfb', hmono, haddr⟩ :=
      ih s1 hinv1 (by omega)
    refine ⟨(g + a) :: addrs, s', ?_, by rw [List.length_cons, hlen], ?_, hinv', by omega,
      fun x hx => (hfa x).mpr (Or.inl (hmono x hx)), ?_⟩
    · rw [alloc_many, buddy_alloc_4096 fuel g s hf, hres]
      simp only
      rw [hrun]
    · rw [List.nodup_cons]
      refine ⟨fun hin => ?_, hnd⟩
      obtain ⟨a', ha', _, _, hfree⟩ := haddr _ hin
      have : a = a' := by omega
      subst this
      exact hex a (le_refl _) (by omega) hfree
    · intro A hA
      rcases List.mem_cons.mp hA with rfl | hA
      · refine ⟨a, rfl, ?_, by omega, (hfa a).mpr (Or.inr ⟨le_refl _, by omega⟩)⟩
        rw [PAGE_SIZE_eq]; exact hd
      · obtain ⟨a', ha', hd', hb', hfree⟩ := haddr A hA
        exact ⟨a', ha', hd', hb', (hfa a').mpr (Or.inl hfree)⟩


/-! ### Facts about the concrete run -/

theorem g0_valid : ValidBase g0 := by decide

theorem s_init_reachable : Reachable g0 s_init := Reachable.init zero_state zero_state_sized

set_option maxRecDepth 100000 in
theorem s_init_take : get_free_block 1 g0 s_init (((19 : Nat) : Int) + 1) =
    .ret (g0, { s_init with free_area := list_del_init 0 s_init.free_area }) := by decide

set_option maxRecDepth 100000 in
theorem s_init_list_19 : s_init.list 19 = [] := by decide

set_option maxRecDepth 100000 in
theorem s_one_eq : buddy_alloc 32 g0 s_init 4096 = .ret (g0, s_one) := by decide

set_option maxRecDepth 100000 in
theorem s_two_eq : buddy_alloc 32 g0 s_one 4096 = .ret (g0 + 4096, s_two) := by decide

set_option maxRecDepth 100000 in
theorem s_whole_eq : buddy_alloc 32 g0 s_init 1048576 = .ret (g0, s_whole) := by decide

theorem s_one_reachable : Reachable g0 s_one :=
  Reachable.alloc 32 s_init 4096 g0 s_one s_init_reachable s_one_eq

theorem get_free_block_split_left_witness :
    ∃ s', get_free_block (1 + 1) g0 s_init ((19 : Nat) : Int) = .ret (g0, s') ∧ g0 ≠ NULL ∧
      BUDDY_ADDR g0 g0 19 = g0 + 2 ^ 19 ∧
      (s'.page (ADDR_TO_PAGE g0 g0)).page_order = ((19 : Nat) : Int) ∧
      (s'.page (ADDR_TO_PAGE g0 (g0 + 2 ^ 19))).page_order = ((19 : Nat) : Int) ∧
      (∀ i, i ≠ ADDR_TO_PAGE g0 g0 → i ≠ ADDR_TO_PAGE g0 (g0 + 2 ^ 19) →
        s'.page i = State.page { s_init with
          free_area := list_del_init 0 s_init.free_area } i) ∧
      State.list { s_init with free_area := list_del_init 0 s_init.free_area } 19 = [] ∧
      s'.list 19 = [ADDR_TO_PAGE g0 (g0 + 2 ^ 19)] ∧
      (∀ o, o ≠ 19 → s'.list o = State.list { s_init with
          free_area := list_del_init 0 s_init.free_area } o) :=
  get_free_block_split_left g0 g0_valid 1 s_init 19 g0
    { s_init with free_area := list_del_init 0 s_init.free_area } s_init_reachable
    (by decide) (by decide) s_init_list_19 s_init_take


/-! ### Exhaustion of the arena -/

theorem alloc_exhaustion (g : Nat) (hg : ValidBase g) (s0 : State) (hs : s0.Sized) (fuel : Nat)
    (hf : 31 ≤ fuel) :
    ∃ addrs s256, alloc_many fuel g 4096 256 (buddy_init g s0) = .ret (addrs, s256) ∧
      addrs.length = 256 ∧ addrs.Nodup ∧
      (∀ A ∈ addrs, A ≠ NULL ∧ g ≤ A ∧ A + 4096 ≤ g + 2 ^ MAX_ORDER ∧ PAGE_SIZE ∣ A - g) ∧
      buddy_alloc fuel g s256 4096 = .fault := by
  have hinv := buddy_init_inv g s0 hs
  have hfb := buddy_init_free_bytes g s0 hs
  obtain ⟨addrs, s256, hrun, hlen, hnd, hinv', hfb', _, haddr⟩ :=
    alloc_many_4096 g hg fuel hf 256 (buddy_init g s0) hinv (by rw [hfb, two_pow_MAX_ORDER])
  refine ⟨addrs, s256, hrun, hlen, hnd, ?_, ?_⟩
  · intro A hA
    obtain ⟨a, rfl, hd, hb, _⟩ := haddr A hA
    have := hg.1
    refine ⟨by rw [NULL]; omega, by omega, by omega, ?_⟩
    rw [Nat.add_sub_cancel_left]; exact hd
  · rw [buddy_alloc_4096 fuel g s256 hf]
    have hz : s256.free_bytes = 0 := by
      rw [hfb, two_pow_MAX_ORDER] at hfb'; omega
    exact (get_free_block_total g hg fuel s256 12 hinv' (by decide) (by decide)
      (by simp only [MAX_ORDER]; omega)).1
      (fun o' h1 h2 => free_bytes_zero s256 hz o' h1 h2)

/-- C4: with `g_memory` at `g0`, after `buddy_init()` the first 256 calls `buddy_alloc(4096)`
return 256 pairwise distinct, non-null, page-aligned addresses inside the arena; the 257th call
does not return `NULL`: it reaches the stores of the splitting branch with the `NULL` of the
nested call and accesses `g_pages` out of bounds. -/
theorem buddy_alloc_257th_call :
    ∃ addrs s256, alloc_many 32 g0 4096 256 (buddy_init g0 zero_state) = .ret (addrs, s256) ∧
      addrs.length = 256 ∧ addrs.Nodup ∧
      (∀ A ∈ addrs, A ≠ NULL ∧ g0 ≤ A ∧ A + 4096 ≤ g0 + 2 ^ MAX_ORDER ∧ PAGE_SIZE ∣ A - g0) ∧
      buddy_alloc 32 g0 s256 4096 = .fault ∧
      buddy_alloc 32 g0 s256 4096 ≠ .ret (NULL, s256) := by
  obtain ⟨addrs, s256, h1, h2, h3, h4, h5⟩ :=
    alloc_exhaustion g0 g0_valid zero_state zero_state_sized 32 (by decide)
  exact ⟨addrs, s256, h1, h2, h3, h4, h5, by rw [h5]; simp⟩

/-! ### Disjointness of the blocks handed out -/

theorem alloc_run_inv (g : Nat) (hg : ValidBase g) (blocks : List (Nat × Nat)) (s : State)
    (h : AllocRun g blocks s) :
    s.Inv ∧ blocks.Pairwise (fun b c => b.1 + b.2 ≤ c.1 ∨ c.1 + c.2 ≤ b.1) ∧
      ∀ b ∈ blocks, g ≤ b.1 ∧ 0 < b.2 ∧
        ∀ x, b.1 ≤ g + x → g + x < b.1 + b.2 → ¬ s.free_at x := by
  induction h with
  | init s0 hs =>
    exact ⟨buddy_init_inv g s0 hs, List.Pairwise.nil, fun b hb => absurd hb (List.not_mem_nil _)⟩
  | success fuel blocks s size order A s' _ ho h ha ih =>
    obtain ⟨hinv, hpw, hbl⟩ := ih
    obtain ⟨o, ho', _, hc⟩ := buddy_alloc_ret g hg fuel s size A s' hinv h
    rw [ho] at ho'
    simp only [Option.some.injEq] at ho'
    subst ho'
    rw [Int.toNat_ofNat]
    rcases hc with ⟨_, hnull, _⟩ | ⟨_, a, hA, _, _, hinv', hfa, hex, _⟩
    · exact absurd hnull ha
    · subst hA
      have hpos : 0 < 2 ^ o := Nat.two_pow_pos o
      refine ⟨hinv', List.pairwise_cons.mpr ⟨?_, hpw⟩, ?_⟩
      · intro b hb
        obtain ⟨hb1, hb2, hb3⟩ := hbl b hb
        show g + a + 2 ^ o ≤ b.1 ∨ b.1 + b.2 ≤ g + a
        by_contra hc
        push_neg at hc
        rcases le_total b.1 (g + a) with hle | hle
        · exact hb3 a hle hc.2 ((hfa a).mpr (Or.inr ⟨le_refl _, by omega⟩))
        · refine hb3 (b.1 - g) (by omega) (by omega) ((hfa (b.1 - g)).mpr (Or.inr ⟨?_, ?_⟩))
          · omega
          · omega
      · intro b hb
        rcases List.mem_cons.mp hb with rfl | hb
        · refine ⟨by show g ≤ g + a; omega, hpos, ?_⟩
          intro x hx1 hx2
          exact hex x (by simpa using hx1) (by
            have : g + x < g + a + 2 ^ o := hx2
            omega)
        · obtain ⟨hb1, hb2, hb3⟩ := hbl b hb
          exact ⟨hb1, hb2, fun x hx1 hx2 hf => hb3 x hx1 hx2 ((hfa x).mpr (Or.inl hf))⟩
  | failure fuel blocks s size s' _ h ih =>
    obtain ⟨hinv, hpw, hbl⟩ := ih
    obtain ⟨o, _, _, hc⟩ := buddy_alloc_ret g hg fuel s size NULL s' hinv h
    rcases hc with ⟨_, _, hs⟩ | ⟨_, a, hA, _⟩
    · rw [hs]; exact ⟨hinv, hpw, hbl⟩
    · have := hg.1
      rw [NULL] at hA; omega

/-- C5: in every run of `buddy_alloc` calls after `buddy_init`, the blocks returned by the
successful calls, as byte ranges `[addr, addr + 2 ^ get_order(size))`, are pairwise disjoint,
and each is disjoint from every block registered in a free list of the current state. -/
theorem allocated_blocks_disjoint (g : Nat) (hg : ValidBase g) (blocks : List (Nat × Nat))
    (s : State) (h : AllocRun g blocks s) :
    blocks.Pairwise (fun b c => b.1 + b.2 ≤ c.1 ∨ c.1 + c.2 ≤ b.1) ∧
    ∀ b ∈ blocks, ∀ o p, MIN_ORDER ≤ o → o ≤ MAX_ORDER → p ∈ s.list o →
      b.1 + b.2 ≤ PAGE_TO_ADDR g p ∨ PAGE_TO_ADDR g p + 2 ^ o ≤ b.1 := by
  obtain ⟨hinv, hpw, hbl⟩ := alloc_run_inv g hg blocks s h
  refine ⟨hpw, ?_⟩
  intro b hb o p h1 h2 hp
  obtain ⟨hb1, hb2, hb3⟩ := hbl b hb
  obtain ⟨_, hal⟩ := hinv.2.2.2.1 o p h1 h2 hp
  have hpos : 0 < 2 ^ o := Nat.two_pow_pos o
  rw [PAGE_TO_ADDR_eq g p hg (by omega)]
  have := not_free_disjoint s (b.1 - g) (b.1 + b.2 - g) (by omega)
    (fun x hx1 hx2 => hb3 x (by omega) (by omega)) o p h1 h2 hp
  omega


theorem s_two_run :
    AllocRun g0 [(g0 + 4096, 2 ^ (12 : Int).toNat), (g0, 2 ^ (12 : Int).toNat)] s_two :=
  AllocRun.success 32 _ s_one 4096 12 (g0 + 4096) s_two
    (AllocRun.success 32 [] s_init 4096 12 g0 s_one
      (AllocRun.init zero_state zero_state_sized) (by decide) s_one_eq (by decide))
    (by decide) s_two_eq (by decide)

theorem allocated_blocks_disjoint_witness :
    ([(g0 + 4096, 2 ^ (12 : Int).toNat), (g0, 2 ^ (12 : Int).toNat)] :
      List (Nat × Nat)).Pairwise (fun b c => b.1 + b.2 ≤ c.1 ∨ c.1 + c.2 ≤ b.1) ∧
    ∀ b ∈ ([(g0 + 4096, 2 ^ (12 : Int).toNat), (g0, 2 ^ (12 : Int).toNat)] :
      List (Nat × Nat)), ∀ o p, MIN_ORDER ≤ o → o ≤ MAX_ORDER → p ∈ s_two.list o →
      b.1 + b.2 ≤ PAGE_TO_ADDR g0 p ∨ PAGE_TO_ADDR g0 p + 2 ^ o ≤ b.1 :=
  allocated_blocks_disjoint g0 g0_valid _ s_two s_two_run

/-! ### buddy_init -/

/-- C6: whatever the prior contents of the globals (of the declared sizes), after `buddy_init`
the free list of order `MAX_ORDER` is exactly `[page 0]`, the free lists of the orders in
`[MIN_ORDER, MAX_ORDER)` are empty, every page's `index` field is its position in the page
table, and `buddy_dump` reports count 1 at order 20 and count 0 at the orders 12..19. -/
theorem buddy_init_spec (g : Nat) (s0 : State) (hs : s0.Sized) :
    (buddy_init g s0).list MAX_ORDER = [0] ∧
    (∀ o, MIN_ORDER ≤ o → o < MAX_ORDER → (buddy_init g s0).list o = []) ∧
    (∀ i, i < N_PAGES → ((buddy_init g s0).page i).index = (i : Int)) ∧
    (buddy_dump (buddy_init g s0)).1 =
      [(0, 4), (0, 8), (0, 16), (0, 32), (0, 64), (0, 128), (0, 256), (0, 512), (1, 1024)] := by
  have hl := buddy_init_list g s0 hs
  refine ⟨?_, ?_, ?_, ?_⟩
  · rw [hl, if_pos rfl]
  · intro o h1 h2
    rw [hl, if_neg (by omega), if_pos ⟨h1, h2⟩]
  · intro i hi
    rw [buddy_init_page g s0 hs i hi]
  · unfold buddy_dump
    rw [show List.range' MIN_ORDER (MAX_ORDER + 1 - MIN_ORDER) =
      [12, 13, 14, 15, 16, 17, 18, 19, 20] by decide]
    simp [hl, MAX_ORDER, MIN_ORDER]

theorem buddy_init_spec_witness :
    (buddy_init g0 zero_state).list MAX_ORDER = [0] ∧
    (∀ o, MIN_ORDER ≤ o → o < MAX_ORDER → (buddy_init g0 zero_state).list o = []) ∧
    (∀ i, i < N_PAGES → ((buddy_init g0 zero_state).page i).index = (i : Int)) ∧
    (buddy_dump (buddy_init g0 zero_state)).1 =
      [(0, 4), (0, 8), (0, 16), (0, 32), (0, 64), (0, 128), (0, 256), (0, 512), (1, 1024)] :=
  buddy_init_spec g0 zero_state zero_state_sized


/-! ### buddy_free -/

set_option maxRecDepth 100000 in
/-- C7: `buddy_free` has an empty body, so it does not undo `buddy_alloc`: after
`buddy_init(); a = buddy_alloc(4096); buddy_free(a);` the free list of order 20 is empty
(it was `[page 0]` before the allocation), the lists of the orders 12..19 still hold the
right halves of the splits, and page 0 still records order 12 (it recorded 20). -/
theorem buddy_free_round_trip_fails :
    buddy_alloc 32 g0 s_init 4096 = .ret (g0, s_one) ∧
    s_init.list 20 = [0] ∧ (buddy_free s_one g0).list 20 = [] ∧
    s_init.list 12 = [] ∧ (buddy_free s_one g0).list 12 = [1] ∧
    (s_init.page 0).page_order = 20 ∧ ((buddy_free s_one g0).page 0).page_order = 12 ∧
    (buddy_dump s_init).1 ≠ (buddy_dump (buddy_free s_one g0)).1 := by
  refine ⟨s_one_eq, ?_, ?_, ?_, ?_, ?_, ?_, ?_⟩ <;> decide

set_option maxRecDepth 100000 in
/-- C8: after `buddy_init(); a = buddy_alloc(4096); b = buddy_alloc(4096);` and `buddy_free`
of `a` and `b` in either order, `buddy_dump` reports no free block at orders 12 and 20 and
one free block at each of the orders 13..19, not a single block at order 20. -/
theorem buddy_free_consolidation_fails :
    buddy_alloc 32 g0 s_init 4096 = .ret (g0, s_one) ∧
    buddy_alloc 32 g0 s_one 4096 = .ret (g0 + 4096, s_two) ∧
    (buddy_dump (buddy_free (buddy_free s_two g0) (g0 + 4096))).1 =
      [(0, 4), (1, 8), (1, 16), (1, 32), (1, 64), (1, 128), (1, 256), (1, 512), (0, 1024)] ∧
    (buddy_dump (buddy_free (buddy_free s_two (g0 + 4096)) g0)).1 =
      [(0, 4), (1, 8), (1, 16), (1, 32), (1, 64), (1, 128), (1, 256), (1, 512), (0, 1024)] := by
  refine ⟨s_one_eq, s_two_eq, ?_, ?_⟩ <;> decide

set_option maxRecDepth 100000 in
/-- C9: `buddy_free` inserts nothing. After `buddy_init(); a = buddy_alloc(4096);
b = buddy_alloc(4096); buddy_free(a);` the block `a` (page 0, head order 12) has its buddy
(page 1, the block `b`) outside `free_area[12]`, and page 0 is not a member of `free_area[12]`
after the call; after `buddy_init(); a = buddy_alloc(1 << 20); buddy_free(a);` the block of
order `MAX_ORDER` is not in `free_area[20]`. -/
theorem buddy_free_inserts_nothing :
    buddy_alloc 32 g0 s_one 4096 = .ret (g0 + 4096, s_two) ∧
    (s_two.page (ADDR_TO_PAGE g0 g0)).page_order = 12 ∧
    ADDR_TO_PAGE g0 (BUDDY_ADDR g0 g0 12) ∉ s_two.list 12 ∧
    ADDR_TO_PAGE g0 g0 ∉ (buddy_free s_two g0).list 12 ∧
    (buddy_free s_two g0).list 12 = [] ∧
    buddy_alloc 32 g0 s_init 1048576 = .ret (g0, s_whole) ∧
    (s_whole.page (ADDR_TO_PAGE g0 g0)).page_order = 20 ∧
    (buddy_free s_whole g0).list 20 = [] := by
  refine ⟨s_two_eq, ?_, ?_, ?_, ?_, s_whole_eq, ?_, ?_⟩ <;> decide

/-- C10: in every reachable state, after a call of `buddy_free` returns, no block of a free
list of order `o` in `[MIN_ORDER, MAX_ORDER)` has its buddy (head offset XOR `2 ^ o`) in the
same list. -/
theorem no_free_buddy_pair (g : Nat) (hg : ValidBase g) (s : State) (addr : Nat)
    (hr : Reachable g s) (o p : Nat) (h1 : MIN_ORDER ≤ o) (h2 : o < MAX_ORDER)
    (hp : p ∈ (buddy_free s addr).list o) :
    BUDDY_ADDR g (PAGE_TO_ADDR g p) o = g + ((p * PAGE_SIZE) ^^^ 2 ^ o) ∧
    ADDR_TO_PAGE g (BUDDY_ADDR g (PAGE_TO_ADDR g p) o) ∉ (buddy_free s addr).list o := by
  have hinv := reachable_inv g hg s hr
  change p ∈ s.list o at hp
  show _ ∧ _ ∉ s.list o
  obtain ⟨_, _, _, hal, _, _, hrh⟩ := hinv
  obtain ⟨hd, hb⟩ := hal o p h1 (le_of_lt h2) hp
  have hodd := hrh o p h1 h2 hp
  have hpos : 0 < 2 ^ o := Nat.two_pow_pos o
  have hx : (p * PAGE_SIZE) ^^^ 2 ^ o = p * PAGE_SIZE - 2 ^ o := by
    rw [xor_two_pow o _ hd, if_neg (by omega)]
  have hge : 2 ^ o ≤ p * PAGE_SIZE := by
    obtain ⟨k, hk⟩ := hd
    rw [hk, Nat.mul_div_cancel_left _ hpos] at hodd
    rw [hk]
    exact Nat.le_mul_of_pos_right _ (by omega)
  have hbud : BUDDY_ADDR g (PAGE_TO_ADDR g p) o = g + ((p * PAGE_SIZE) ^^^ 2 ^ o) := by
    rw [PAGE_TO_ADDR_eq g p hg (by omega), BUDDY_ADDR_eq g _ o hg (by omega)
      (by rw [hx]; omega)]
  refine ⟨hbud, ?_⟩
  rw [hbud, hx, ADDR_TO_PAGE_eq g _ hg (by omega)]
  intro hq
  have hodd' := hrh o _ h1 h2 hq
  have hps : PAGE_SIZE ∣ p * PAGE_SIZE - 2 ^ o :=
    Nat.dvd_sub' (Dvd.intro_left p rfl) (page_size_dvd_two_pow o h1)
  rw [Nat.div_mul_cancel hps] at hodd'
  obtain ⟨k, hk⟩ := hd
  rw [hk, Nat.mul_div_cancel_left _ hpos] at hodd
  have e : p * PAGE_SIZE - 2 ^ o = 2 ^ o * (k - 1) := by
    rw [hk, Nat.mul_sub, Nat.mul_one]
  rw [e, Nat.mul_div_cancel_left _ hpos] at hodd'
  omega

set_option maxRecDepth 100000 in
theorem no_free_buddy_pair_witness :
    BUDDY_ADDR g0 (PAGE_TO_ADDR g0 1) 12 = g0 + ((1 * PAGE_SIZE) ^^^ 2 ^ 12) ∧
    ADDR_TO_PAGE g0 (BUDDY_ADDR g0 (PAGE_TO_ADDR g0 1) 12) ∉ (buddy_free s_one g0).list 12 :=
  no_free_buddy_pair g0 g0_valid s_one g0 s_one_reachable 12 1 (by decide) (by decide)
    (by decide)


/-! ### Invalid calls of buddy_free -/

theorem s_one_inv : s_one.Inv := reachable_inv g0 g0_valid s_one s_one_reachable

/-! ### Requests of non-positive size -/

theorem get_order_loop_neg (fuel : Nat) :
    ∀ (z ord : Int), z < 0 → get_order_loop fuel z ord = none := by
  induction fuel with
  | zero => intro z ord _; rfl
  | succ k ih =>
    intro z ord hz
    have hs : z >>> (1 : Nat) < 0 := by
      rw [Int.shiftRight_eq_div_pow]
      norm_num
      omega
    rw [get_order_loop]
    show (if z >>> (1 : Nat) ≠ 0 then get_order_loop k (z >>> (1 : Nat)) (ord + 1)
      else some ord) = none
    rw [if_pos (by omega), ih _ _ hs]

theorem get_order_nonpos (fuel : Nat) (size : Int) (h : size ≤ 0) :
    get_order fuel size = none := by
  unfold get_order
  rw [get_order_loop_neg fuel (size - 1) 1 (by omega)]

theorem buddy_alloc_nonpos (fuel g : Nat) (s : State) (size : Int) (h : size ≤ 0) :
    buddy_alloc fuel g s size = .timeout := by
  unfold buddy_alloc
  rw [get_order_nonpos fuel size h]

/-- C12: `get_order(0)` and `get_order(-4096)` never leave the loop `while(size>>=1)`: for
every amount of fuel the evaluation is still running, so no failure is reported and
`buddy_alloc(0)` does not return either. -/
theorem get_order_nonpositive_diverges (fuel : Nat) :
    get_order fuel 0 = none ∧ get_order fuel (-4096) = none ∧
    buddy_alloc fuel g0 s_init 0 = .timeout ∧
    buddy_alloc fuel g0 s_init 0 ≠ .ret (NULL, s_init) := by
  refine ⟨get_order_nonpos fuel 0 (by decide), get_order_nonpos fuel (-4096) (by decide),
    buddy_alloc_nonpos fuel g0 s_init 0 (by decide), ?_⟩
  rw [buddy_alloc_nonpos fuel g0 s_init 0 (by decide)]
  simp


/-! ### Orders above MAX_ORDER -/

/-- C13: for every order above `MAX_ORDER`, `get_free_block(order)` returns `NULL` and leaves
the state as it is; so for every size above `2 ^ MAX_ORDER` (a C `int`), `buddy_alloc(size)`
returns `NULL` in every state, leaving it unchanged. -/
theorem get_free_block_above_max (fuel g : Nat) (s : State) (order size : Int)
    (hf : 31 ≤ fuel) (ho : (MAX_ORDER : Int) < order) (h1 : 2 ^ MAX_ORDER < size)
    (h2 : size ≤ INT_MAX) :
    (∀ fuel', 1 ≤ fuel' → get_free_block fuel' g s order = .ret (NULL, s)) ∧
    buddy_alloc fuel g s size = .ret (NULL, s) := by
  refine ⟨?_, ?_⟩
  · intro fuel' hf'
    obtain ⟨k, rfl⟩ : ∃ k, fuel' = k + 1 := ⟨fuel' - 1, by omega⟩
    exact get_free_block_out_of_range k g s order (Or.inl ho)
  · have hpos : (1 : Int) ≤ size := by
      have : (0 : Int) < 2 ^ MAX_ORDER := by positivity
      omega
    obtain ⟨o, hord, _, hle, _⟩ := get_order_least_aux fuel size hf hpos h2
    have hgt : MAX_ORDER < o := by
      by_contra hc
      have h3 : (2 : Int) ^ o ≤ 2 ^ MAX_ORDER :=
        pow_le_pow_right₀ (by norm_num) (not_lt.mp hc)
      omega
    obtain ⟨k, rfl⟩ : ∃ k, fuel = k + 1 := ⟨fuel - 1, by omega⟩
    unfold buddy_alloc
    rw [hord]
    exact get_free_block_out_of_range k g s (o : Int) (Or.inl (by exact_mod_cast hgt))

theorem get_free_block_above_max_witness :
    (∀ fuel', 1 ≤ fuel' → get_free_block fuel' g0 s_init 21 = .ret (NULL, s_init)) ∧
    buddy_alloc 31 g0 s_init 1048577 = .ret (NULL, s_init) :=
  get_free_block_above_max 31 g0 s_init 21 1048577 (by decide) (by decide) (by decide)
    (by decide)

/-! ### Failure of get_free_block inside the order range -/

theorem s_whole_reachable : Reachable g0 s_whole :=
  Reachable.alloc 32 s_init 1048576 g0 s_whole s_init_reachable s_whole_eq

set_option maxRecDepth 100000 in
theorem s_whole_free_area : s_whole.free_area = List.replicate (MAX_ORDER + 1) [] := by decide

set_option maxRecDepth 100000 in
theorem s_whole_fault_12 : get_free_block 32 g0 s_whole ((12 : Nat) : Int) = .fault := by decide

set_option maxRecDepth 100000 in
theorem s_whole_fault_20 : get_free_block 2 g0 s_whole ((20 : Nat) : Int) = .fault := by decide

theorem get_free_block_not_null (g : Nat) (hg : ValidBase g) (fuel : Nat) (s : State) (o : Nat)
    (s' : State) (hinv : s.Inv) (h1 : MIN_ORDER ≤ o) (h2 : o ≤ MAX_ORDER) :
    get_free_block fuel g s (o : Int) ≠ .ret (NULL, s') := by
  intro h
  obtain ⟨a, ha, _⟩ := get_free_block_ret g hg fuel s o NULL s' hinv h1 h2 h
  have := hg.1
  rw [NULL] at ha
  omega

/-- C14: after `buddy_init(); buddy_alloc(1 << 20);` every free list is empty, and
`get_free_block(12)` does not return `NULL`: it ends in an out-of-bounds access to `g_pages`,
whatever the fuel it never returns `NULL` for an order in the range. -/
theorem get_free_block_exhausted :
    Reachable g0 s_whole ∧ s_whole.free_area = List.replicate (MAX_ORDER + 1) [] ∧
    get_free_block 32 g0 s_whole ((12 : Nat) : Int) = .fault ∧
    ∀ (fuel : Nat) (s' : State), get_free_block fuel g0 s_whole ((12 : Nat) : Int) ≠
      .ret (NULL, s') :=
  ⟨s_whole_reachable, s_whole_free_area, s_whole_fault_12, fun fuel s' =>
    get_free_block_not_null g0 g0_valid fuel s_whole 12 s'
      (reachable_inv g0 g0_valid s_whole s_whole_reachable) (by decide) (by decide)⟩

set_option maxRecDepth 100000 in
/-- C19: after `buddy_init(); buddy_alloc(1 << 20);` the nested call `get_free_block(21)` made
by `get_free_block(20)` returns `NULL`, and the splitting branch then indexes `g_pages` with
`ADDR_TO_PAGE(BUDDY_ADDR(NULL, 20))` and `ADDR_TO_PAGE(NULL)`, both outside `[0, 256)`: the
failure does not come back as `NULL` with the state untouched, it is an out-of-bounds
store. -/
theorem get_free_block_failure_out_of_bounds :
    get_free_block 1 g0 s_whole (((20 : Nat) : Int) + 1) = .ret (NULL, s_whole) ∧
    N_PAGES ≤ ADDR_TO_PAGE g0 (BUDDY_ADDR g0 NULL 20) ∧
    N_PAGES ≤ ADDR_TO_PAGE g0 NULL ∧
    2 ^ (MAX_ORDER - MIN_ORDER) = N_PAGES ∧
    get_free_block 2 g0 s_whole ((20 : Nat) : Int) = .fault := by
  refine ⟨?_, ?_, ?_, ?_, s_whole_fault_20⟩ <;> decide


/-! ### The buddy relation -/

/-- C15: for `o < MAX_ORDER` and an arena offset `A < 2 ^ MAX_ORDER` that is a multiple of
`2 ^ o`, `BUDDY_ADDR` maps `g_memory + A` to `g_memory + (A XOR 2 ^ o)`; that offset is again
below `2 ^ MAX_ORDER`, a multiple of `2 ^ o`, different from `A`, and its buddy is `A` again;
when `A` is a multiple of `2 ^ (o + 1)` it equals `A + 2 ^ o`. -/
theorem buddy_addr_involution (g : Nat) (hg : ValidBase g) (o A : Nat) (ho : o < MAX_ORDER)
    (hA : A < 2 ^ MAX_ORDER) (hd : 2 ^ o ∣ A) :
    BUDDY_ADDR g (g + A) o = g + (A ^^^ 2 ^ o) ∧
    A ^^^ 2 ^ o < 2 ^ MAX_ORDER ∧ 2 ^ o ∣ A ^^^ 2 ^ o ∧ A ^^^ 2 ^ o ≠ A ∧
    BUDDY_ADDR g (g + (A ^^^ 2 ^ o)) o = g + A ∧
    (2 ^ (o + 1) ∣ A → A ^^^ 2 ^ o = A + 2 ^ o) := by
  have hpos : 0 < 2 ^ o := Nat.two_pow_pos o
  have hlt : A ^^^ 2 ^ o < 2 ^ MAX_ORDER :=
    Nat.xor_lt_two_pow hA (Nat.pow_lt_pow_right (by decide) ho)
  have hinv : (A ^^^ 2 ^ o) ^^^ 2 ^ o = A := by
    rw [Nat.xor_assoc, Nat.xor_self, Nat.xor_zero]
  have hx := xor_two_pow o A hd
  refine ⟨BUDDY_ADDR_eq g A o hg hA hlt, hlt, ?_, ?_, ?_, ?_⟩
  · by_cases he : A / 2 ^ o % 2 = 0
    · rw [hx, if_pos he]; exact Dvd.dvd.add hd (dvd_refl _)
    · rw [hx, if_neg he]; exact Nat.dvd_sub' hd (dvd_refl _)
  · intro heq
    rw [heq] at hinv
    have : A ^^^ 2 ^ o = A ^^^ 0 := by rw [heq, Nat.xor_zero]
    have h0 := Nat.xor_right_injective this
    omega
  · rw [BUDDY_ADDR_eq g _ o hg hlt (by rw [hinv]; exact hA), hinv]
  · intro hd2
    have hev : A / 2 ^ o % 2 = 0 := by
      obtain ⟨q, rfl⟩ := hd2
      rw [pow_succ, Nat.mul_assoc, Nat.mul_div_cancel_left _ hpos]
      omega
    rw [hx, if_pos hev]

theorem buddy_addr_involution_witness :
    BUDDY_ADDR g0 (g0 + 8192) 12 = g0 + (8192 ^^^ 2 ^ 12) ∧
    8192 ^^^ 2 ^ 12 < 2 ^ MAX_ORDER ∧ 2 ^ 12 ∣ 8192 ^^^ 2 ^ 12 ∧ 8192 ^^^ 2 ^ 12 ≠ 8192 ∧
    BUDDY_ADDR g0 (g0 + (8192 ^^^ 2 ^ 12)) 12 = g0 + 8192 ∧
    (2 ^ (12 + 1) ∣ 8192 → 8192 ^^^ 2 ^ 12 = 8192 + 2 ^ 12) :=
  buddy_addr_involution g0 g0_valid 12 8192 (by decide) (by decide) (by decide)

/-! ### Free pages and their lists -/

/-- C16: in every reachable state a page that is a member of the free list of order `o`
(`MIN_ORDER ≤ o ≤ MAX_ORDER`) is in no free list of another order, occurs once in its list,
records `page_order = o`, and has a byte offset that is a multiple of `2 ^ page_order`. -/
theorem free_page_one_list (g : Nat) (hg : ValidBase g) (s : State) (hr : Reachable g s)
    (o p : Nat) (h1 : MIN_ORDER ≤ o) (h2 : o ≤ MAX_ORDER) (hp : p ∈ s.list o) :
    (∀ o', MIN_ORDER ≤ o' → o' ≤ MAX_ORDER → p ∈ s.list o' → o' = o) ∧
    (s.list o).count p = 1 ∧ (s.page p).page_order = (o : Int) ∧
    2 ^ (s.page p).page_order.toNat ∣ p * PAGE_SIZE := by
  have hinv := reachable_inv g hg s hr
  obtain ⟨_, _, _, hnd, huniq⟩ := inv_wellFormed hinv
  obtain ⟨_, _, _, hal, _, hpo, _⟩ := hinv
  refine ⟨fun o' h1' h2' hp' => huniq o' o p h1' h2' h1 h2 hp' hp,
    List.count_eq_one_of_mem (hnd o h1 h2) hp, hpo o p h1 h2 hp, ?_⟩
  rw [hpo o p h1 h2 hp, Int.toNat_ofNat]
  exact (hal o p h1 h2 hp).1

set_option maxRecDepth 100000 in
theorem free_page_one_list_witness :
    (∀ o', MIN_ORDER ≤ o' → o' ≤ MAX_ORDER → 2 ∈ s_one.list o' → o' = 13) ∧
    (s_one.list 13).count 2 = 1 ∧ (s_one.page 2).page_order = ((13 : Nat) : Int) ∧
    2 ^ (s_one.page 2).page_order.toNat ∣ 2 * PAGE_SIZE :=
  free_page_one_list g0 g0_valid s_one s_one_reachable 13 2 (by decide) (by decide) (by decide)

/-! ### buddy_dump -/

/-- C17: `buddy_dump` leaves the state as it is, and what it prints is one pair per order
from `MIN_ORDER` to `MAX_ORDER` in increasing order: the number of members of `free_area[o]`
and the block size `2 ^ o / 1024` in KiB. -/
theorem buddy_dump_spec (s : State) :
    (buddy_dump s).2 = s ∧
    (buddy_dump s).1 =
      [((s.list 12).length, 2 ^ 12 / 1024), ((s.list 13).length, 2 ^ 13 / 1024),
       ((s.list 14).length, 2 ^ 14 / 1024), ((s.list 15).length, 2 ^ 15 / 1024),
       ((s.list 16).length, 2 ^ 16 / 1024), ((s.list 17).length, 2 ^ 17 / 1024),
       ((s.list 18).length, 2 ^ 18 / 1024), ((s.list 19).length, 2 ^ 19 / 1024),
       ((s.list 20).length, 2 ^ 20 / 1024)] ∧
    (buddy_dump s).1.length = MAX_ORDER - MIN_ORDER + 1 := by
  refine ⟨rfl, ?_, ?_⟩
  · unfold buddy_dump
    rw [show List.range' MIN_ORDER (MAX_ORDER + 1 - MIN_ORDER) =
      [12, 13, 14, 15, 16, 17, 18, 19, 20] by decide]
    rfl
  · unfold buddy_dump
    rw [show List.range' MIN_ORDER (MAX_ORDER + 1 - MIN_ORDER) =
      [12, 13, 14, 15, 16, 17, 18, 19, 20] by decide]
    rfl


/-! ### Depth of the recursion -/

theorem get_free_block_depth_aux (g : Nat) (fuel : Nat) :
    ∀ (s : State) (order : Int), 1 ≤ fuel → (MAX_ORDER : Int) - order + 2 ≤ fuel →
      get_free_block fuel g s order ≠ .timeout := by
  induction fuel with
  | zero => intro s order h _; omega
  | succ k ih =>
    intro s order _ hd
    by_cases hr : order > (MAX_ORDER : Int) ∨ order < (MIN_ORDER : Int)
    · rw [get_free_block_out_of_range k g s order hr]; simp
    · push_neg at hr
      obtain ⟨o, rfl⟩ : ∃ o : Nat, order = (o : Int) :=
        ⟨order.toNat, by simp only [MIN_ORDER] at hr; omega⟩
      have ho : MIN_ORDER ≤ o := by exact_mod_cast hr.2
      have ho' : o ≤ MAX_ORDER := by exact_mod_cast hr.1
      by_cases he : s.list o = []
      · rw [get_free_block_split k g s o ho ho' he]
        have hk := ih s ((o : Int) + 1) (by omega) (by omega)
        cases hrec : get_free_block k g s ((o : Int) + 1) with
        | timeout => exact absurd hrec hk
        | fault => simp
        | ret v =>
          obtain ⟨A1, s1⟩ := v
          simp only
          split
          · simp
          · split <;> simp
      · rw [get_free_block_take k g s o ho ho' he]
        split <;> simp

theorem get_order_terminates (fuel : Nat) (size : Int) (hf : 31 ≤ fuel) (h1 : 1 ≤ size)
    (h2 : size ≤ INT_MAX) : get_order fuel size ≠ none := by
  rw [get_order_eq fuel size hf h1 h2]; simp

/-! ### The block of a successful allocation -/

theorem get_order_loop_some (fuel : Nat) :
    ∀ (n : Nat) (ord r : Int), get_order_loop fuel (n : Int) ord = some r →
      r = ord + (Nat.log 2 n : Nat) := by
  induction fuel with
  | zero => intro n ord r h; exact absurd h (by simp [get_order_loop])
  | succ k ih =>
    intro n ord r h
    have hs : (n : Int) >>> (1 : Nat) = ((n / 2 : Nat) : Int) := by
      rw [Int.shiftRight_eq_div_pow]; simp
    rw [get_order_loop] at h
    simp only [hs] at h
    by_cases hn : n < 2
    · have h0 : n / 2 = 0 := by omega
      rw [h0] at h
      simp only [Nat.cast_zero, ne_eq, not_true_eq_false, if_false, Option.some.injEq] at h
      rw [Nat.log_of_lt hn, ← h]; simp
    · have h0 : n / 2 ≠ 0 := by omega
      rw [if_pos (by exact_mod_cast h0)] at h
      rw [ih _ _ _ h, Nat.log_of_one_lt_of_le (by decide) (by omega : 2 ≤ n)]
      push_cast; ring

theorem get_order_some (fuel : Nat) (size order : Int) (h : get_order fuel size = some order) :
    ∃ o : Nat, order = (o : Int) ∧ MIN_ORDER ≤ o ∧ 1 ≤ size ∧ size ≤ 2 ^ o := by
  have hpos : 1 ≤ size := by
    by_contra hc
    rw [get_order_nonpos fuel size (by omega)] at h
    exact absurd h (by simp)
  obtain ⟨n, hn⟩ : ∃ n : Nat, size - 1 = (n : Int) := ⟨(size - 1).toNat, by omega⟩
  have hge := get_order_ge fuel size order h
  obtain ⟨o, rfl⟩ : ∃ o : Nat, order = (o : Int) := ⟨order.toNat, by omega⟩
  refine ⟨o, rfl, by exact_mod_cast hge, hpos, ?_⟩
  unfold get_order at h
  rw [hn] at h
  cases hl : get_order_loop fuel (n : Int) 1 with
  | none => rw [hl] at h; exact absurd h (by simp)
  | some ord =>
    rw [hl] at h
    have hord := get_order_loop_some fuel n 1 ord hl
    have h3 : n < 2 ^ (Nat.log 2 n).succ := Nat.lt_pow_succ_log_self (by decide) n
    have hle : 1 + Nat.log 2 n ≤ o := by
      simp only at h
      by_cases hc : ord < (MIN_ORDER : Int)
      · rw [if_pos hc] at h
        simp only [Option.some.injEq] at h
        omega
      · rw [if_neg hc] at h
        simp only [Option.some.injEq] at h
        omega
    have h4 : 2 ^ (Nat.log 2 n).succ ≤ 2 ^ o :=
      Nat.pow_le_pow_right (by decide) (by rw [Nat.succ_eq_add_one]; omega)
    have hs : size = ((n + 1 : Nat) : Int) := by push_cast; omega
    rw [hs]
    exact_mod_cast (by omega : n + 1 ≤ 2 ^ o)

/-- C20: in every reachable state, when `buddy_alloc(size)` returns a non-null address `A`
(for any `size`, in particular `1 ≤ size ≤ 2 ^ MAX_ORDER`), the offset `A - g_memory` is a
multiple of `2 ^ get_order(size)`, the block of that length at this offset lies inside
`[0, 2 ^ MAX_ORDER)` and has at least `size` bytes, and the number of bytes in the free lists
has gone down by exactly `2 ^ get_order(size)`. -/
theorem buddy_alloc_block (g : Nat) (hg : ValidBase g) (fuel : Nat) (s : State) (size : Int)
    (A : Nat) (s' : State) (hr : Reachable g s)
    (h : buddy_alloc fuel g s size = .ret (A, s')) (hA : A ≠ NULL) :
    ∃ o : Nat, get_order fuel size = some (o : Int) ∧ g ≤ A ∧ 2 ^ o ∣ A - g ∧
      (A - g) + 2 ^ o ≤ 2 ^ MAX_ORDER ∧ 1 ≤ size ∧ size ≤ 2 ^ o ∧
      s'.free_bytes + 2 ^ o = s.free_bytes := by
  have hinv := reachable_inv g hg s hr
  obtain ⟨o, hord, _, hc⟩ := buddy_alloc_ret g hg fuel s size A s' hinv h
  obtain ⟨o', ho', _, hpos, hle⟩ := get_order_some fuel size (o : Int) hord
  have : o' = o := by exact_mod_cast ho'.symm
  subst this
  rcases hc with ⟨_, hnull, _⟩ | ⟨_, a, rfl, hd, hb, _, _, _, hfb⟩
  · exact absurd hnull hA
  · refine ⟨o', hord, by omega, ?_, ?_, hpos, hle, hfb.symm⟩
    · rw [Nat.add_sub_cancel_left]; exact hd
    · rw [Nat.add_sub_cancel_left]; exact hb

theorem buddy_alloc_block_witness :
    ∃ o : Nat, get_order 32 4096 = some (o : Int) ∧ g0 ≤ g0 + 4096 ∧
      2 ^ o ∣ g0 + 4096 - g0 ∧ (g0 + 4096 - g0) + 2 ^ o ≤ 2 ^ MAX_ORDER ∧ (1 : Int) ≤ 4096 ∧
      (4096 : Int) ≤ 2 ^ o ∧ s_two.free_bytes + 2 ^ o = s_one.free_bytes :=
  buddy_alloc_block g0 g0_valid 32 s_one 4096 (g0 + 4096) s_two s_one_reachable s_two_eq
    (by decide)


/-! ### A state with several members in one list -/

set_option maxRecDepth 100000 in
theorem s_mixed_sized : s_mixed.Sized := by decide

set_option maxRecDepth 100000 in
theorem s_mixed_wellFormed : s_mixed.WellFormed := by
  have hlist : ∀ o, MIN_ORDER ≤ o → o ≤ MAX_ORDER →
      s_mixed.list o = if o = 12 then [5, 3, 7] else if o = 15 then [8]
        else if o = 16 then [16] else if o = 17 then [32] else if o = 18 then [64]
        else if o = 19 then [128] else [] := by
    intro o h1 h2
    simp only [MIN_ORDER, MAX_ORDER] at h1 h2
    interval_cases o <;> rfl
  refine ⟨s_mixed_sized, ?_, ?_, ?_, ?_⟩
  · intro i hi
    exact buddy_init_page g0 zero_state zero_state_sized i hi ▸ rfl
  · intro o p h1 h2 hp
    rw [hlist o h1 h2, N_PAGES_eq] at *
    simp only [MIN_ORDER, MAX_ORDER] at h1 h2
    interval_cases o <;> simp at hp <;> omega
  · intro o h1 h2
    rw [hlist o h1 h2]
    simp only [MIN_ORDER, MAX_ORDER] at h1 h2
    interval_cases o <;> decide
  · intro o o' p h1 h2 h1' h2' hp hp'
    rw [hlist o h1 h2] at hp
    rw [hlist o' h1' h2'] at hp'
    simp only [MIN_ORDER, MAX_ORDER] at h1 h2 h1' h2'
    interval_cases o <;> interval_cases o' <;> simp at hp hp' <;> omega

set_option maxRecDepth 100000 in
theorem get_free_block_nonempty_witness :
    (s_mixed.WellFormed ∧ s_mixed.list 12 = [5, 3, 7]) ∧
    (∃ m s', m ∈ s_mixed.list 12 ∧ (∀ p ∈ s_mixed.list 12, m ≤ p) ∧
      get_free_block 1 g0 s_mixed ((12 : Nat) : Int) = .ret (PAGE_TO_ADDR g0 m, s') ∧
      s'.list 12 = (s_mixed.list 12).erase m ∧ m ∉ s'.list 12 ∧
      (∀ p, p ≠ m → (p ∈ s'.list 12 ↔ p ∈ s_mixed.list 12)) ∧
      (∀ o, MIN_ORDER ≤ o → o ≤ MAX_ORDER → o ≠ 12 → s'.list o = s_mixed.list o) ∧
      s'.g_pages = s_mixed.g_pages) ∧
    get_free_block 1 g0 s_mixed ((12 : Nat) : Int) =
      .ret (g0 + 3 * PAGE_SIZE, { s_mixed with
        free_area := [[], [], [], [], [], [], [], [], [], [], [], [],
          [5, 7], [], [], [8], [16], [32], [64], [128], []] }) :=
  ⟨⟨s_mixed_wellFormed, by decide⟩,
    get_free_block_nonempty 1 g0 s_mixed 12 (by decide) (by decide) (by decide)
      s_mixed_wellFormed (by decide),
    by decide⟩


/-! ### The partition of the arena in a run of allocations -/

end Buddy
